import Mathlib

/-!
Shallow embedding of the core of the `jeda` transit-map renderer:

* `src/octi/gridgraph/GridGraph.cpp` — the octilinear grid graph (centers,
  ports, inter-cell traversal edges, reversible cost perturbations).
* `src/transitmap/optim/ILPOptimizer.cpp` — the line-ordering ILP
  formulation and solution extraction.

Modelling conventions:
* C++ `double` is modelled as `ℚ` (exact rational arithmetic); the value
  `std::numeric_limits<double>::infinity()` used as an edge cost is
  modelled by `Option ℚ` with `none` standing for `INF`.
* C++ `size_t` arithmetic wraps modulo `2^64`; where that wrap is
  semantically relevant (coordinate offsets in `getNeighbor`, the
  `optimDistance` computation) it is modelled explicitly.
* C++ `int` `%` and `/` truncate toward zero; they are modelled by
  `Int.tmod` and `Int.tdiv`.
* The generic graph container backing the grid is external to the sampled
  sources; the grid is modelled by its stable topology (every cell of the
  `W × H` lattice has its center, its eight ports, and an inter-cell edge
  towards each existing neighbour, as built by the constructor) together
  with the mutable per-edge and per-node state (`GridState`).
-/

namespace Jeda

/-- `2^64`, the modulus of C++ `size_t` arithmetic. -/
def U64 : Nat := 2 ^ 64

/-- Reduction of an `Int` into C++ `uint64_t`/`size_t` range (two's
complement conversion). -/
def toU64 (z : Int) : Nat := (z % (U64 : Int)).toNat

/-- Grid cell coordinates `(x, y)`. -/
abbrev Coord := Nat × Nat

/-- Canonical identifier of an inter-cell (traversal) edge: the edge
between port `i` of cell `c` and port `(i+4) % 8` of the neighbour `nb`
is keyed by the endpoint whose outgoing direction is `< 4`. -/
abbrev EdgeId := Coord × Nat

namespace GridGraph

/-- The x-offset added (as `size_t`, i.e. mod `2^64`) to a cell's x
coordinate for direction `i`; from `GridGraph::getNeighbor`:
`x = 1; if (i % 4 == 0) x = 0; if (i > 4) x = -1;`. -/
def dxU (i : Nat) : Nat := if i % 4 == 0 then 0 else if i > 4 then U64 - 1 else 1

/-- The y-offset added (as `size_t`) to a cell's y coordinate for
direction `i`; from `GridGraph::getNeighbor`:
`y = 1; if (i == 2 || i == 6) y = 0; if (i == 3 || i == 4 || i == 5) y = -1;`. -/
def dyU (i : Nat) : Nat :=
  if i == 2 || i == 6 then 0 else if i == 3 || i == 4 || i == 5 then U64 - 1 else 1

/-- `GridGraph::getNode`: returns the center at `(x, y)`, or none when the
coordinates are out of bounds.  (After construction every in-bounds cell
holds exactly one center, so the spatial-index lookup is total.) -/
def getNode (W H x y : Nat) : Option Coord :=
  if x ≥ W ∨ y ≥ H then none else some (x, y)

/-- `GridGraph::getNeighbor`: 8-direction neighbour lookup.  The C++
offsets are `int8_t` added to `size_t` coordinates, so a negative offset
wraps modulo `2^64`. -/
def getNeighbor (W H cx cy i : Nat) : Option Coord :=
  getNode W H ((cx + dxU i) % U64) ((cy + dyU i) % U64)

/-- Mathematical x-offset of direction `i` (the value `dxU` encodes mod
`2^64`). -/
def offX (i : Nat) : Int := if i % 4 == 0 then 0 else if i > 4 then -1 else 1

/-- Mathematical y-offset of direction `i`. -/
def offY (i : Nat) : Int :=
  if i == 2 || i == 6 then 0 else if i == 3 || i == 4 || i == 5 then -1 else 1

/-- Canonical key of the inter-cell edge leaving cell `c` in direction
`i` towards neighbour `nb`. -/
def edgeIdAt (c : Coord) (i : Nat) (nb : Coord) : EdgeId :=
  if i < 4 then (c, i) else (nb, i - 4)

/-- Penalty configuration (`Penalties` struct consumed by the grid). -/
structure Penalties where
  verticalPen : ℚ
  horizontalPen : ℚ
  diagonalPen : ℚ
  p_0 : ℚ
  p_135 : ℚ
  p_90 : ℚ
  p_45 : ℚ

/-- Modelled from the spec: `NodeCost` (§4.1), the external 8-slot
real-valued cost accumulator with all slots initially zero; its class
definition (`octi/gridgraph/NodeCost.h`) is not among the sampled
sources.  Slots outside `0..7` are never accessed by the embedded code
paths. -/
abbrev NodeCost := Nat → ℚ

/-- Pointwise update of a `NodeCost` slot. -/
def ncUpd (a : NodeCost) (k : Nat) (v : ℚ) : NodeCost :=
  fun k' => if k' = k then v else a k'

/-- Mutable per-edge and per-node state of the grid: the center `closed`
flags, and for every inter-cell edge its `closed` flag, its raw cost
(`none` = `INF`) and its reserved-edges set (comb-edge ids). -/
structure GridState where
  nodeClosed : Coord → Bool
  edgeClosed : EdgeId → Bool
  rawCost : EdgeId → Option ℚ
  resEdges : EdgeId → List Nat

/-- `GridEdgePL::close` / `open` on one edge. -/
def setEdgeClosed (st : GridState) (k : EdgeId) (b : Bool) : GridState :=
  { st with edgeClosed := fun k' => if k' = k then b else st.edgeClosed k' }

/-- `GridNodePL::setClosed` on one center. -/
def setNodeClosed (st : GridState) (c : Coord) (b : Bool) : GridState :=
  { st with nodeClosed := fun c' => if c' = c then b else st.nodeClosed c' }

/-- `GridEdgePL::setCost` on one edge (`none` = `INF`). -/
def setRawCost (st : GridState) (k : EdgeId) (q : Option ℚ) : GridState :=
  { st with rawCost := fun k' => if k' = k then q else st.rawCost k' }

/-- `GridGraph::closeNode`: if the center is already closed, do nothing;
otherwise close every inter-cell edge incident to its ports and mark the
center closed. -/
def closeNode (W H : Nat) (st : GridState) (n : Coord) : GridState :=
  if st.nodeClosed n then st
  else
    let st' := (List.range 8).foldl (fun s i =>
      match getNeighbor W H n.1 n.2 i with
      | none => s
      | some nb => setEdgeClosed s (edgeIdAt n i nb) true) st
    setNodeClosed st' n true

/-- `GridGraph::openNode`: if the center is not closed, do nothing;
otherwise re-open each incident inter-cell edge whose far center is not
closed and whose reserved-edges set is empty, then mark the center open. -/
def openNode (W H : Nat) (st : GridState) (n : Coord) : GridState :=
  if st.nodeClosed n then
    let st' := (List.range 8).foldl (fun s i =>
      match getNeighbor W H n.1 n.2 i with
      | none => s
      | some nb =>
        if s.nodeClosed nb then s
        else if (s.resEdges (edgeIdAt n i nb)).length == 0 then
          setEdgeClosed s (edgeIdAt n i nb) false
        else s) st
    setNodeClosed st' n false
  else st

/-- One slot of `GridGraph::addCostVector`: the body of the loop over the
eight directions, threading the state and the inverse cost vector. -/
def applyStep (W H : Nat) (n : Coord) (addC : NodeCost) :
    GridState × NodeCost → Nat → GridState × NodeCost :=
  fun sv i =>
    match getNeighbor W H n.1 n.2 i with
    | none => sv
    | some nb =>
      let k := edgeIdAt n i nb
      if addC i < -1 then
        if sv.1.edgeClosed k then (sv.1, ncUpd sv.2 i 0)
        else (closeNode W H (setEdgeClosed sv.1 k true) nb, ncUpd sv.2 i (addC i))
      else (setRawCost sv.1 k ((sv.1.rawCost k).map (· + addC i)), ncUpd sv.2 i (addC i))

/-- `GridGraph::addCostVector`: apply a penalty vector around node `n`,
returning the new state and the inverse cost vector. -/
def addCostVector (W H : Nat) (st : GridState) (n : Coord) (addC : NodeCost) :
    GridState × NodeCost :=
  (List.range 8).foldl (applyStep W H n addC) (st, fun _ => 0)

/-- One slot of `GridGraph::removeCostVector`. -/
def unapplyStep (W H : Nat) (n : Coord) (addC : NodeCost) :
    GridState → Nat → GridState :=
  fun s i =>
    match getNeighbor W H n.1 n.2 i with
    | none => s
    | some nb =>
      let k := edgeIdAt n i nb
      if addC i < -1 then openNode W H (setEdgeClosed s k false) nb
      else setRawCost s k ((s.rawCost k).map (· - addC i))

/-- `GridGraph::removeCostVector`: undo a previously applied inverse cost
vector around node `n`. -/
def removeCostVector (W H : Nat) (st : GridState) (n : Coord) (addC : NodeCost) :
    GridState :=
  (List.range 8).foldl (unapplyStep W H n addC) st

/-- `GridGraph::getNEdge`: the inter-cell edge between centers `a` and
`b`, scanning the eight mirrored port pairs. -/
def getNEdge (W H : Nat) (a b : Coord) : Option EdgeId :=
  (List.range 8).findSome? (fun i =>
    match getNeighbor W H a.1 a.2 i with
    | none => none
    | some nb => if nb = b then some (edgeIdAt a i nb) else none)

/-- `GridGraph::balanceEdge`: make the traversal edge `a—b` impassable,
close both endpoints, and for a diagonal direction also make the crossing
diagonal edge between the two off-axis neighbours impassable. -/
def balanceEdge (W H : Nat) (st : GridState) (a b : Coord) : GridState :=
  if a = b then st
  else
    let dir := ((List.range 8).find? (fun i =>
      match getNeighbor W H a.1 a.2 i with
      | none => false
      | some nb => nb == b)).getD 8
    let st1 := match getNEdge W H a b with
      | none => st
      | some k => setRawCost st k none
    let st2 := closeNode W H st1 a
    let st3 := closeNode W H st2 b
    if dir == 1 || dir == 3 || dir == 5 || dir == 7 then
      match getNeighbor W H a.1 a.2 ((dir + 7) % 8),
          getNeighbor W H a.1 a.2 ((dir + 1) % 8) with
      | some na, some nb2 =>
        match getNEdge W H na nb2 with
        | none => st3
        | some k => setRawCost st3 k none
      | _, _ => st3
    else st3

/-- A concrete grid state (all open, zero costs, nothing reserved) used
to instantiate the general theorems. -/
def stSample : GridState :=
  ⟨fun _ => false, fun _ => false, fun _ => some 0, fun _ => []⟩

/-- A concrete cost vector with one sentinel slot and one additive slot,
used to instantiate the general theorems. -/
def cSample : NodeCost :=
  fun d => if d = 0 then -2 else if d = 1 then 3 else 0

/-- The inter-cell edges incident to the ports of center `m`: those whose
canonical key arises from one of `m`'s eight directions with an existing
neighbour. -/
def IncidentTo (W H : Nat) (m : Coord) (k : EdgeId) : Prop :=
  ∃ i, i < 8 ∧ ∃ nb, getNeighbor W H m.1 m.2 i = some nb ∧ k = edgeIdAt m i nb

/-- The conversion of a nonnegative `double` to `size_t` (truncation
toward zero; a negative value is undefined behaviour in C++ and mapped to
`0` here). -/
def truncD (q : ℚ) : Nat := (⌊q⌋).toNat

/-- `GridGraph::heurCost`.  The C++ stores the two products in `size_t`
locals, truncating each `double` product to an integer. -/
def heurCost (c : Penalties) (xa ya xb yb : Int) : ℚ :=
  if xa = xb ∧ ya = yb then 0
  else
    let minHops : Nat := max (xb - xa).natAbs (yb - ya).natAbs
    let edgeCost : Nat :=
      truncD ((minHops : ℚ) * min c.verticalPen (min c.horizontalPen c.diagonalPen))
    let hopCost : Nat := truncD (((minHops - 1 : Nat) : ℚ) * (c.p_45 - c.p_135))
    ((edgeCost + hopCost : Nat) : ℚ)

/-- Port x-direction unit factor from `GridGraph::writeNd`:
`int xi = ((4 - (i % 8)) % 4); xi /= abs(abs(xi) - 1) + 1;`
(`%` and `/` truncate toward zero on C++ `int`). -/
def xiOf (i : Nat) : Int :=
  let a : Int := Int.tmod (4 - ((i % 8 : Nat) : Int)) 4
  Int.tdiv a (((a.natAbs : Int) - 1).natAbs + 1)

/-- Port y-direction unit factor from `GridGraph::writeNd`:
`int yi = ((4 - ((i + 2) % 8)) % 4); yi /= abs(abs(yi) - 1) + 1;`. -/
def yiOf (i : Nat) : Int :=
  let a : Int := Int.tmod (4 - (((i + 2) % 8 : Nat) : Int)) 4
  Int.tdiv a (((a.natAbs : Int) - 1).natAbs + 1)

/-- Construction parameters of a `GridGraph` (bounding-box lower-left
corner, cell size, spacer, penalties). -/
structure GridGraphCfg where
  llx : ℚ
  lly : ℚ
  cellSize : ℚ
  spacer : ℚ
  pens : Penalties

/-- The `_spacer` member used by `writeNd`.  The constructor's initializer
list sets `_spacer(spacer)` from the raw argument before the body runs;
the body's `if (spacer > cellSize / 2) spacer = cellSize / 2;` reassigns
only the local parameter, which is never read again, so the member keeps
the unclamped value. -/
def memberSpacer (cellSize spacer : ℚ) : ℚ := spacer

/-- The dead clamped value computed in the constructor body. -/
def clampedSpacerLocal (cellSize spacer : ℚ) : ℚ :=
  if spacer > cellSize / 2 then cellSize / 2 else spacer

/-- Geometric position of the center of cell `(x, y)` (`writeNd`, with
zero offsets as passed by the constructor). -/
def centerPos (cfg : GridGraphCfg) (x y : Nat) : ℚ × ℚ :=
  (cfg.llx + (x : ℚ) * cfg.cellSize, cfg.lly + (y : ℚ) * cfg.cellSize)

/-- Geometric position of port `i` of cell `(x, y)` (`writeNd`):
center plus `(xi * _spacer, yi * _spacer)`. -/
def portPos (cfg : GridGraphCfg) (x y i : Nat) : ℚ × ℚ :=
  let c := centerPos cfg x y
  (c.1 + (xiOf i : ℚ) * memberSpacer cfg.cellSize cfg.spacer,
   c.2 + (yiOf i : ℚ) * memberSpacer cfg.cellSize cfg.spacer)

/-- Angular-distance class of two port directions from `writeNd`:
`int d = (int)(i) - (int)(j); size_t deg = abs((((d + 4) % 8) + 8) % 8 - 4);`. -/
def degOf (i j : Nat) : Nat :=
  Int.natAbs ((Int.tmod (((i : Int) - (j : Int)) + 4) 8 + 8) % 8 - 4)

/-- The intra-cell bend edges written by `writeNd` for one center, as
`(i, j, cost)` triples over the port pairs `i < j`: pairs of angular
distance 1 are skipped, distance 2 costs `c_90`, distance 3 costs
`c_135`, and distance 4 costs `c_0`. -/
def intraCellEdges (c : Penalties) : List (Nat × Nat × ℚ) :=
  let c_0 := c.p_45 - c.p_135
  let c_135 := c.p_45
  let c_90 := c.p_45 - c.p_135 + c.p_90
  (List.range 8).flatMap (fun i =>
    ((List.range 8).filter (fun j => i + 1 ≤ j)).filterMap (fun j =>
      let deg := degOf i j
      if deg == 1 then none
      else
        let pen := if deg == 2 then c_90 else if deg == 3 then c_135 else c_0
        some (i, j, pen)))

/-- Spec-side notion for C7: the angular (minimal cyclic) distance
between two directions `i < j < 8`. -/
def cycDist (i j : Nat) : Nat := min (j - i) (8 - (j - i))

/-- A comb (input-graph) node as consumed by the penalty engine: its
adjacency-list size and its cyclic clockwise edge ordering (comb-edge
ids).  Modelled from the spec: the comb graph is externally owned (§3,
§6); the ordering supports `has(e)` and `dist(a, b) ∈ [0, deg)` with
`dist(a, a) = 0`. -/
structure CombNode where
  adjSize : Nat
  ordering : List Nat

/-- Modelled from the spec: `EdgeOrdering::has`. -/
def ordHas (o : List Nat) (e : Nat) : Bool := o.contains e

/-- Modelled from the spec: `EdgeOrdering::dist(a, b)` = clockwise steps
from `a` to `b` in the cyclic ordering. -/
def ordDist (o : List Nat) (a b : Nat) : Nat :=
  (o.indexOf b + o.length - o.indexOf a) % o.length

/-- `GridGraph::getSettledOutgoingEdges`: for direction `i`, the first
reserving comb edge of the inter-cell edge leaving `n` in direction `i`,
if any. -/
def getSettledOutgoingEdges (W H : Nat) (st : GridState) (n : Coord) (i : Nat) :
    Option Nat :=
  match getNeighbor W H n.1 n.2 i with
  | none => none
  | some nb =>
    match st.resEdges (edgeIdAt n i nb) with
    | [] => none
    | e :: _ => some e

/-- `std::numeric_limits<double>::max()` exactly, as a rational. -/
def dblMax : ℚ := (2 ^ 53 - 1) * 2 ^ 971

/-- `GridGraph::spacingPenalty`.  If `e` is missing from the comb node's
edge ordering, warn (side effect not modelled) and return the all-zero
vector; otherwise accumulate the decaying repulsion and the hard blocks
around every settled outgoing direction.  `optimDistance` is a C++
`size_t` assigned from an `int` expression, hence the `toU64` wrap. -/
def spacingPenalty (W H : Nat) (st : GridState) (pens : Penalties) (n : Coord)
    (origNode : CombNode) (e : Nat) : NodeCost :=
  let addC : NodeCost := fun _ => 0
  let origEdgeNumber : Int := (origNode.adjSize : Int)
  let optimDistance : Nat := toU64 (Int.tdiv 8 origEdgeNumber - 1)
  if !(ordHas origNode.ordering e) then addC
  else
    (List.range 8).foldl (fun addC i =>
      match getSettledOutgoingEdges W H st n i with
      | none => addC
      | some oe =>
        let dCw : Int := (ordDist origNode.ordering oe e : Int) - 1
        let dCCw : Int := (ordDist origNode.ordering e oe : Int) - 1
        let dd : Int :=
          (((toU64 (Int.tmod ((dCw + 1) + dCw) 8) * optimDistance) % U64 % 8 : Nat) : Int)
        let ddd : Int := Int.tmod (6 - dd) 8
        let pen : ℚ := pens.p_45 * 2 - 1
        let addC := if dd = 0 then addC
          else (List.range (dd.toNat + 1)).foldl (fun a jm =>
            let j : Nat := jm + 1
            let idx := (i + j) % 8
            if a idx < -1 then a
            else ncUpd a idx (a idx + pen * (1 - ((j : ℚ) - 1) / (dd : ℚ)))) addC
        let addC := if ddd ≤ 0 then addC
          else (List.range (ddd.toNat + 1)).foldl (fun a jm =>
            let j : Nat := jm + 1
            let idx := (i + toU64 (8 - (j : Int))) % U64 % 8
            if a idx < -1 then a
            else ncUpd a idx (a idx + pen * (1 - ((j : ℚ) - 1) / (ddd : ℚ)))) addC
        let addC := ncUpd addC i (-1 * dblMax)
        let addC := if dCw ≤ 0 then addC
          else (List.range dCw.toNat).foldl (fun a jm =>
            ncUpd a ((i + (jm + 1)) % 8) (-1 * dblMax)) addC
        if dCCw ≤ 0 then addC
        else (List.range dCCw.toNat).foldl (fun a jm =>
          ncUpd a ((i + toU64 (8 - ((jm + 1 : Nat) : Int))) % U64 % 8) (-1 * dblMax)) addC)
      addC

end GridGraph

namespace ILP

/-- ILP variable names.  `getILPVarName` builds the string
`x_(<segRepr>,l=<line>,p=<p>)`; the decision variables of the crossing
constraints use the distinct `x_dec(...)` shape.  The two shapes are
modelled injectively by the two constructors. -/
inductive VName where
  | x (seg line p : Nat)
  | dec (id : Nat)
deriving DecidableEq

/-- Row sense of the external solver interface: `FIX` (equality) or `UP`
(upper bound). -/
inductive RowType where
  | fix
  | up
deriving DecidableEq

/-- The solver state built through `addRow` / `addCol` / `addColToRow`:
rows (bound and sense) and columns (name and objective coefficient, all
binary) in creation order, plus the coefficient entries. -/
structure LPState where
  rows : List (ℚ × RowType)
  cols : List (VName × ℚ)
  entries : List (Nat × Nat × ℚ)

/-- The freshly created problem (`getSolver`). -/
def emptyLP : LPState := ⟨[], [], []⟩

/-- `ILPSolver::addRow`, returning the new row's index
(`getNumConstrs()` before the append). -/
def addRow (lp : LPState) (bound : ℚ) (t : RowType) : LPState × Nat :=
  ({ lp with rows := lp.rows ++ [(bound, t)] }, lp.rows.length)

/-- `ILPSolver::addCol` (binary column), returning the new column's
index. -/
def addCol (lp : LPState) (nm : VName) (obj : ℚ) : LPState × Nat :=
  ({ lp with cols := lp.cols ++ [(nm, obj)] }, lp.cols.length)

/-- `ILPSolver::addColToRow`. -/
def addColToRow (lp : LPState) (r c : Nat) (coef : ℚ) : LPState :=
  { lp with entries := lp.entries ++ [(r, c, coef)] }

/-- `ILPSolver::getVarByName`: index of the first column with the given
name, `-1` if absent. -/
def getVarByName (lp : LPState) (nm : VName) : Int :=
  match lp.cols.findIdx? (fun x => x.1 == nm) with
  | none => -1
  | some i => (i : Int)

/-- `addColToRow` through a `getVarByName` result.  The C++ asserts the
index is `> -1` (aborting the program otherwise); a missing name
contributes no entry here. -/
def addColToRowByIdx (lp : LPState) (r : Nat) (ci : Int) (coef : ℚ) : LPState :=
  if ci < 0 then lp else addColToRow lp r ci.toNat coef

/-- One `etgs` element of an `OptEdge` (underlying edge-trip-group
reference). -/
structure Etgp where
  etg : Nat
  order : Nat
  dir : Bool
  wasCut : Bool

/-- One line of a bundle segment with its collapsed `relatives`. -/
structure LineOcc where
  line : Nat
  relatives : List Nat

/-- A bundle segment (`OptEdge`): from-node id, string-repr id,
cardinality `K`, lines, and underlying edge-trip-groups. -/
structure OptEdge where
  fromId : Nat
  segRepr : Nat
  card : Nat
  lines : List LineOcc
  etgs : List Etgp

/-- A junction (`OptNode`) with its adjacency list. -/
structure OptNode where
  id : Nat
  adjList : List OptEdge

/-- The segments processed by the `for (n : g) for (e : n.adjList) if
(e.getFrom() != n) continue` iteration pattern shared by `createProblem`
and `getConfigurationFromSolution`. -/
def processedEdges (g : List OptNode) : List OptEdge :=
  g.flatMap (fun n => n.adjList.filter (fun e => e.fromId == n.id))

/-- `ILPOptimizer::getILPVarName`. -/
def getILPVarName (e : OptEdge) (line p : Nat) : VName := VName.x e.segRepr line p

/-- The per-segment block of `createProblem`: `K` slot rows
(`sum(...,p=p)`, FIX 1), then per line one line row (`sum(...,l=l)`,
FIX 1) and per position one binary column wired into its line row and
its slot row. -/
def addAssignmentBlock (lp : LPState) (e : OptEdge) : LPState :=
  let rowA := lp.rows.length
  let lp1 := (List.range e.card).foldl (fun l _p => (addRow l 1 RowType.fix).1) lp
  e.lines.foldl (fun l lo =>
    let rp := addRow l 1 RowType.fix
    (List.range e.card).foldl (fun l2 p =>
      let cp := addCol l2 (getILPVarName e lo.line p) 0
      addColToRow (addColToRow cp.1 rp.2 cp.2 1) (rowA + p) cp.2 1) rp.1) lp1

/-- The assignment phase of `ILPOptimizer::createProblem` (before the
crossing constraints). -/
def assignmentPhase (g : List OptNode) : LPState :=
  (processedEdges g).foldl addAssignmentBlock emptyLP

/-- One decision variable of `writeSameSegConstraints` with its crossing
position combinations, pre-resolved to the four looked-up variable names
per combination (the enumeration of line pairs, partner segments and the
`crosses` oracle are external). -/
structure SameSegItem where
  decId : Nat
  obj : ℚ
  combos : List (VName × VName × VName × VName)

/-- One decision variable of `writeDiffSegConstraints` with its crossing
position combinations (two looked-up variable names each). -/
structure DiffSegItem where
  decId : Nat
  obj : ℚ
  combos : List (VName × VName)

/-- The per-decision-variable work of `writeSameSegConstraints`: add the
binary decision column, then per crossing combination one `UP 3` row with
the four assignment variables at `+1` and the decision variable at `-1`. -/
def addSameSegItem (lp : LPState) (it : SameSegItem) : LPState :=
  let dp := addCol lp (VName.dec it.decId) it.obj
  it.combos.foldl (fun l c =>
    let a1 := getVarByName l c.1
    let a2 := getVarByName l c.2.1
    let a3 := getVarByName l c.2.2.1
    let a4 := getVarByName l c.2.2.2
    let rp := addRow l 3 RowType.up
    let l1 := addColToRowByIdx rp.1 rp.2 a1 1
    let l2 := addColToRowByIdx l1 rp.2 a2 1
    let l3 := addColToRowByIdx l2 rp.2 a3 1
    let l4 := addColToRowByIdx l3 rp.2 a4 1
    addColToRow l4 rp.2 dp.2 (-1)) dp.1

/-- The per-decision-variable work of `writeDiffSegConstraints`: add the
binary decision column, then per crossing combination one `UP 1` row with
the two assignment variables at `+1` and the decision variable at `-1`. -/
def addDiffSegItem (lp : LPState) (it : DiffSegItem) : LPState :=
  let dp := addCol lp (VName.dec it.decId) it.obj
  it.combos.foldl (fun l c =>
    let a1 := getVarByName l c.1
    let a2 := getVarByName l c.2
    let rp := addRow l 1 RowType.up
    let l1 := addColToRowByIdx rp.1 rp.2 a1 1
    let l2 := addColToRowByIdx l1 rp.2 a2 1
    addColToRow l2 rp.2 dp.2 (-1)) dp.1

/-- `ILPOptimizer::createProblem`: assignment rows and columns, then the
same-segment and different-segment crossing constraints. -/
def createProblem (g : List OptNode) (same : List SameSegItem)
    (diff : List DiffSegItem) : LPState :=
  let lp := assignmentPhase g
  let lp2 := same.foldl addSameSegItem lp
  diff.foldl addDiffSegItem lp2

/-- Contribution of a list of coefficient entries to row `r` under a
column assignment. -/
def entrySum (es : List (Nat × Nat × ℚ)) (sol : Nat → ℚ) (r : Nat) : ℚ :=
  ((es.filter (fun t => t.1 == r)).map (fun t => t.2.2 * sol t.2.1)).sum

/-- Value of row `r` under an assignment of values to columns. -/
def rowSum (lp : LPState) (sol : Nat → ℚ) (r : Nat) : ℚ :=
  entrySum lp.entries sol r

/-- The coefficient entries written by the per-line loop of
`addAssignmentBlock` for `n` lines, when the slot rows start at `rowA`,
the next row index is `R` and the next column index is `C`. -/
def linesEntries (rowA R C card : Nat) : Nat → List (Nat × Nat × ℚ)
  | 0 => []
  | n + 1 =>
    ((List.range card).flatMap (fun p =>
      [((R, C + p, 1) : Nat × Nat × ℚ), (rowA + p, C + p, 1)])) ++
      linesEntries rowA (R + 1) (C + card) card n

/-- `lp'` extends `lp` by appending rows and appending entries that only
reference rows at or beyond `lp`'s row count. -/
def Ext (lp lp' : LPState) : Prop :=
  (∃ rs, lp'.rows = lp.rows ++ rs) ∧
  (∃ es, lp'.entries = lp.entries ++ es ∧ ∀ t ∈ es, lp.rows.length ≤ t.1)

/-- Whether row `r` is satisfied: `FIX` rows hold with equality, `UP`
rows as an upper bound. -/
def rowOk (lp : LPState) (sol : Nat → ℚ) (r : Nat) : Bool :=
  match lp.rows[r]? with
  | some (b, RowType.fix) => rowSum lp sol r == b
  | some (b, RowType.up) => decide (rowSum lp sol r ≤ b)
  | none => true

/-- A feasible solution: every (binary) column is 0 or 1 and every row
is satisfied. -/
def Feasible (lp : LPState) (sol : Nat → ℚ) : Prop :=
  (∀ c < lp.cols.length, sol c = 0 ∨ sol c = 1) ∧
    ∀ r < lp.rows.length, rowOk lp sol r = true

/-- Number of rows contributed by the assignment blocks of a list of
segments. -/
def rowsOf (es : List OptEdge) : Nat :=
  (es.map (fun e => e.card + e.lines.length)).sum

/-- Number of columns contributed by the assignment blocks of a list of
segments. -/
def colsOf (es : List OptEdge) : Nat :=
  (es.map (fun e => e.lines.length * e.card)).sum

/-- Index of the assignment variable `x(e, lines[li], p)` in the problem
built with the segments `pre` processed before `e`. -/
def colIdx (pre : List OptEdge) (e : OptEdge) (li p : Nat) : Nat :=
  colsOf pre + li * e.card + p

/-- The hierarchical order configuration `HierarOrderCfg`:
`(etg, order) ↦ ordered list of original line positions`. -/
abbrev HierarOrderCfg := Nat → Nat → List Nat

/-- Update of one `(etg, order)` slot of a `HierarOrderCfg`. -/
def hcUpd (hc : HierarOrderCfg) (a b : Nat) (l : List Nat) : HierarOrderCfg :=
  fun a' b' => if a' = a ∧ b' = b then l else hc a' b'

/-- The innermost loop of `getConfigurationFromSolution`: place every
relative of the winning line `lo` into the order list at
`(etgp.etg, etgp.order)`; position `p` is prepended when
`!(etgp.dir ^ etgs.front().dir)` and appended otherwise. -/
def placeRelatives (linePos : Nat → Nat → Nat) (e : OptEdge) (etgp : Etgp)
    (hc : HierarOrderCfg) (lo : LineOcc) : HierarOrderCfg :=
  lo.relatives.foldl (fun hc rel =>
    let p := linePos etgp.etg rel
    let frontDir := match e.etgs with
      | [] => false
      | f :: _ => f.dir
    if !(Bool.xor etgp.dir frontDir) then
      hcUpd hc etgp.etg etgp.order (p :: hc etgp.etg etgp.order)
    else
      hcUpd hc etgp.etg etgp.order (hc etgp.etg etgp.order ++ [p])) hc

/-- `ILPOptimizer::getConfigurationFromSolution`.  `sol` is the solved
model's `getVarVal` by name; `linePos` is the external
`etg->pl().linePos` lookup.  The runtime `assert`s are not modelled. -/
def getConfigurationFromSolution (sol : VName → ℚ) (linePos : Nat → Nat → Nat)
    (g : List OptNode) (hc : HierarOrderCfg) : HierarOrderCfg :=
  (processedEdges g).foldl (fun hc e =>
    e.etgs.foldl (fun hc etgp =>
      if etgp.wasCut then hc
      else
        (List.range e.card).foldl (fun hc tp =>
          e.lines.foldl (fun hc lo =>
            if sol (getILPVarName e lo.line tp) > 1 / 2 then
              placeRelatives linePos e etgp hc lo
            else hc) hc) hc) hc) hc

/-- The claim's reading of the extraction ("if the traversal direction
disagrees with the bundle's reference direction, insert at the front;
otherwise append at the back"): identical to
`getConfigurationFromSolution` except that the two branches of the
direction test are exchanged. -/
def placeRelativesSpec (linePos : Nat → Nat → Nat) (e : OptEdge) (etgp : Etgp)
    (hc : HierarOrderCfg) (lo : LineOcc) : HierarOrderCfg :=
  lo.relatives.foldl (fun hc rel =>
    let p := linePos etgp.etg rel
    let frontDir := match e.etgs with
      | [] => false
      | f :: _ => f.dir
    if Bool.xor etgp.dir frontDir then
      hcUpd hc etgp.etg etgp.order (p :: hc etgp.etg etgp.order)
    else
      hcUpd hc etgp.etg etgp.order (hc etgp.etg etgp.order ++ [p])) hc

/-- The extraction as the claim states it (front insertion exactly when
the directions disagree). -/
def getConfigurationFromSolutionSpec (sol : VName → ℚ) (linePos : Nat → Nat → Nat)
    (g : List OptNode) (hc : HierarOrderCfg) : HierarOrderCfg :=
  (processedEdges g).foldl (fun hc e =>
    e.etgs.foldl (fun hc etgp =>
      if etgp.wasCut then hc
      else
        (List.range e.card).foldl (fun hc tp =>
          e.lines.foldl (fun hc lo =>
            if sol (getILPVarName e lo.line tp) > 1 / 2 then
              placeRelativesSpec linePos e etgp hc lo
            else hc) hc) hc) hc) hc

/-- A one-node graph with a single processed segment, used as a concrete
instance of the assignment constraints. -/
def gW : List OptNode := [⟨0, [⟨0, 0, 1, [⟨5, []⟩], []⟩]⟩]

/-- The single segment of `gW`. -/
def eW : OptEdge := ⟨0, 0, 1, [⟨5, []⟩], []⟩

/-- The all-ones column assignment (feasible for `createProblem gW [] []`). -/
def solW : Nat → ℚ := fun _ => 1

end ILP

end Jeda

namespace Jeda

namespace GridGraph

theorem getNeighbor_some_iff (W H x y i : Nat) (hW : W < U64) (hH : H < U64)
    (hx : x < W) (hy : y < H) (hi : i < 8) (nb : Coord) :
    getNeighbor W H x y i = some nb ↔
      ((nb.1 : Int) = x + offX i ∧ (nb.2 : Int) = y + offY i ∧ nb.1 < W ∧ nb.2 < H) := by
  obtain ⟨a, b⟩ := nb
  interval_cases i <;>
    · simp only [U64] at hW hH
      simp only [getNeighbor, getNode, dxU, dyU, offX, offY, U64]
      norm_num
      omega

theorem getNeighbor_some_bounds (W H x y i : Nat) (nb : Coord)
    (h : getNeighbor W H x y i = some nb) : nb.1 < W ∧ nb.2 < H := by
  simp only [getNeighbor, getNode] at h
  split_ifs at h with hc
  push_neg at hc
  simp only [Option.some.injEq] at h
  subst h
  exact hc

theorem off_injective :
    ∀ i < 8, ∀ j < 8, offX i = offX j → offY i = offY j → i = j := by decide

theorem off_ne_zero : ∀ i < 8, ¬(offX i = 0 ∧ offY i = 0) := by decide

theorem off_opp : ∀ i < 8, ∀ j < 8, i = (j + 4) % 8 → offX i = -offX j ∧ offY i = -offY j := by
  decide

theorem getNeighbor_ne_self (W H x y i : Nat) (hW : W < U64) (hH : H < U64)
    (hx : x < W) (hy : y < H) (hi : i < 8) (nb : Coord)
    (h : getNeighbor W H x y i = some nb) : nb ≠ (x, y) := by
  obtain ⟨e1, e2, _, _⟩ := (getNeighbor_some_iff W H x y i hW hH hx hy hi nb).mp h
  intro hEq
  subst hEq
  exact off_ne_zero i hi ⟨by omega, by omega⟩

theorem getNeighbor_inj_dir (W H x y i j : Nat) (hW : W < U64) (hH : H < U64)
    (hx : x < W) (hy : y < H) (hi : i < 8) (hj : j < 8) (hij : i ≠ j)
    (a b : Coord) (ha : getNeighbor W H x y i = some a)
    (hb : getNeighbor W H x y j = some b) : a ≠ b := by
  obtain ⟨e1, e2, _, _⟩ := (getNeighbor_some_iff W H x y i hW hH hx hy hi a).mp ha
  obtain ⟨f1, f2, _, _⟩ := (getNeighbor_some_iff W H x y j hW hH hx hy hj b).mp hb
  intro hEq
  subst hEq
  exact hij (off_injective i hi j hj (by omega) (by omega))

/-- Two canonical inter-cell edge keys coincide only if they denote the
same undirected edge: either the same (cell, direction) description, or
the mirrored description from the other endpoint. -/
theorem edgeIdAt_eq_cases (W H : Nat) (hW : W < U64) (hH : H < U64)
    (c c' nb nb' : Coord) (i i' : Nat) (hi : i < 8) (hi' : i' < 8)
    (hcx : c.1 < W) (hcy : c.2 < H) (hcx' : c'.1 < W) (hcy' : c'.2 < H)
    (hn : getNeighbor W H c.1 c.2 i = some nb)
    (hn' : getNeighbor W H c'.1 c'.2 i' = some nb')
    (heq : edgeIdAt c i nb = edgeIdAt c' i' nb') :
    (c = c' ∧ i = i' ∧ nb = nb') ∨ (c = nb' ∧ c' = nb ∧ i' = (i + 4) % 8) := by
  obtain ⟨e1, e2, _, _⟩ := (getNeighbor_some_iff W H c.1 c.2 i hW hH hcx hcy hi nb).mp hn
  obtain ⟨f1, f2, _, _⟩ :=
    (getNeighbor_some_iff W H c'.1 c'.2 i' hW hH hcx' hcy' hi' nb').mp hn'
  have hop1 : i' = (i + 4) % 8 → offX i' = -offX i ∧ offY i' = -offY i := off_opp i' hi' i hi
  have hop2 : i = (i' + 4) % 8 → offX i = -offX i' ∧ offY i = -offY i' := off_opp i hi i' hi'
  have hsame : i = i' → offX i = offX i' ∧ offY i = offY i' := by
    intro h
    rw [h]
    exact ⟨rfl, rfl⟩
  by_cases h4 : i < 4 <;> by_cases h4' : i' < 4 <;>
    simp only [edgeIdAt, h4, h4', if_true, if_false, if_pos, if_neg, not_lt,
      Prod.ext_iff] at heq ⊢ <;>
    omega

theorem foldl_induction {α β : Type} {P : α → Prop} (f : α → β → α) (l : List β) (a : α)
    (ha : P a) (hf : ∀ a' b, b ∈ l → P a' → P (f a' b)) : P (l.foldl f a) := by
  induction l generalizing a with
  | nil => exact ha
  | cons x xs ih =>
    exact ih (f a x) (hf a x (List.mem_cons_self x xs) ha)
      (fun a' b hb => hf a' b (List.mem_cons_of_mem x hb))

theorem range8_decomp (i : Nat) (hi : i < 8) :
    List.range 8 = List.range i ++ i :: (List.range (7 - i)).map (fun t => i + 1 + t) := by
  interval_cases i <;> rfl

@[simp] theorem setEdgeClosed_rawCost (st : GridState) (k' : EdgeId) (b : Bool) (k : EdgeId) :
    (setEdgeClosed st k' b).rawCost k = st.rawCost k := rfl

@[simp] theorem setEdgeClosed_nodeClosed (st : GridState) (k' : EdgeId) (b : Bool) (c : Coord) :
    (setEdgeClosed st k' b).nodeClosed c = st.nodeClosed c := rfl

@[simp] theorem setEdgeClosed_resEdges (st : GridState) (k' : EdgeId) (b : Bool) (k : EdgeId) :
    (setEdgeClosed st k' b).resEdges k = st.resEdges k := rfl

theorem setEdgeClosed_edgeClosed (st : GridState) (k' : EdgeId) (b : Bool) (k : EdgeId) :
    (setEdgeClosed st k' b).edgeClosed k = if k = k' then b else st.edgeClosed k := rfl

@[simp] theorem setNodeClosed_rawCost (st : GridState) (c' : Coord) (b : Bool) (k : EdgeId) :
    (setNodeClosed st c' b).rawCost k = st.rawCost k := rfl

@[simp] theorem setNodeClosed_edgeClosed (st : GridState) (c' : Coord) (b : Bool) (k : EdgeId) :
    (setNodeClosed st c' b).edgeClosed k = st.edgeClosed k := rfl

@[simp] theorem setNodeClosed_resEdges (st : GridState) (c' : Coord) (b : Bool) (k : EdgeId) :
    (setNodeClosed st c' b).resEdges k = st.resEdges k := rfl

theorem setNodeClosed_nodeClosed (st : GridState) (c' : Coord) (b : Bool) (c : Coord) :
    (setNodeClosed st c' b).nodeClosed c = if c = c' then b else st.nodeClosed c := rfl

@[simp] theorem setRawCost_edgeClosed (st : GridState) (k' : EdgeId) (q : Option ℚ) (k : EdgeId) :
    (setRawCost st k' q).edgeClosed k = st.edgeClosed k := rfl

@[simp] theorem setRawCost_nodeClosed (st : GridState) (k' : EdgeId) (q : Option ℚ) (c : Coord) :
    (setRawCost st k' q).nodeClosed c = st.nodeClosed c := rfl

@[simp] theorem setRawCost_resEdges (st : GridState) (k' : EdgeId) (q : Option ℚ) (k : EdgeId) :
    (setRawCost st k' q).resEdges k = st.resEdges k := rfl

theorem setRawCost_rawCost (st : GridState) (k' : EdgeId) (q : Option ℚ) (k : EdgeId) :
    (setRawCost st k' q).rawCost k = if k = k' then q else st.rawCost k := rfl

@[simp] theorem closeNode_rawCost (W H : Nat) (st : GridState) (m : Coord) (k : EdgeId) :
    (closeNode W H st m).rawCost k = st.rawCost k := by
  unfold closeNode
  split_ifs with h
  · rfl
  · rw [setNodeClosed_rawCost]
    exact foldl_induction (P := fun s : GridState => s.rawCost k = st.rawCost k) _ _ _ rfl
      (fun s i _ hs => by
        cases hnb : getNeighbor W H m.1 m.2 i with
        | none => simpa [hnb] using hs
        | some nb => simpa [hnb] using hs)

@[simp] theorem closeNode_resEdges (W H : Nat) (st : GridState) (m : Coord) (k : EdgeId) :
    (closeNode W H st m).resEdges k = st.resEdges k := by
  unfold closeNode
  split_ifs with h
  · rfl
  · rw [setNodeClosed_resEdges]
    exact foldl_induction (P := fun s : GridState => s.resEdges k = st.resEdges k) _ _ _ rfl
      (fun s i _ hs => by
        cases hnb : getNeighbor W H m.1 m.2 i with
        | none => simpa [hnb] using hs
        | some nb => simpa [hnb] using hs)

theorem closeNode_nodeClosed (W H : Nat) (st : GridState) (m : Coord) (c : Coord) :
    (closeNode W H st m).nodeClosed c = if c = m then true else st.nodeClosed c := by
  have hfold : ∀ s0 : GridState,
      ((List.range 8).foldl (fun s i =>
        match getNeighbor W H m.1 m.2 i with
        | none => s
        | some nb => setEdgeClosed s (edgeIdAt m i nb) true) s0).nodeClosed c
        = s0.nodeClosed c := by
    intro s0
    exact foldl_induction (P := fun s : GridState => s.nodeClosed c = s0.nodeClosed c) _ _ _ rfl
      (fun s i _ hs => by
        cases hnb : getNeighbor W H m.1 m.2 i with
        | none => simpa [hnb] using hs
        | some nb => simpa [hnb] using hs)
  unfold closeNode
  cases hm : st.nodeClosed m with
  | true =>
    rw [if_pos rfl]
    by_cases hc : c = m
    · subst hc
      simp [hm]
    · simp [hc]
  | false =>
    rw [if_neg (by simp)]
    rw [setNodeClosed_nodeClosed]
    by_cases hc : c = m
    · simp [hc]
    · rw [if_neg hc, if_neg hc]
      exact hfold st

theorem closeNode_edgeClosed_mono (W H : Nat) (st : GridState) (m : Coord) (k : EdgeId)
    (h : st.edgeClosed k = true) : (closeNode W H st m).edgeClosed k = true := by
  unfold closeNode
  split_ifs with hcl
  · exact h
  · rw [setNodeClosed_edgeClosed]
    exact foldl_induction (P := fun s : GridState => s.edgeClosed k = true) _ _ _ h
      (fun s i _ hs => by
        cases hnb : getNeighbor W H m.1 m.2 i with
        | none => simpa [hnb] using hs
        | some nb =>
          simp only [hnb, setEdgeClosed_edgeClosed]
          split_ifs <;> simp [hs])

theorem closeNode_edgeClosed_not_incident (W H : Nat) (st : GridState) (m : Coord) (k : EdgeId)
    (h : ¬IncidentTo W H m k) : (closeNode W H st m).edgeClosed k = st.edgeClosed k := by
  unfold closeNode
  split_ifs with hcl
  · rfl
  · rw [setNodeClosed_edgeClosed]
    refine foldl_induction (P := fun s : GridState => s.edgeClosed k = st.edgeClosed k) _ _ _ rfl
      (fun s i hi hs => ?_)
    cases hnb : getNeighbor W H m.1 m.2 i with
    | none => simpa [hnb] using hs
    | some nb =>
      have hki : k ≠ edgeIdAt m i nb := by
        intro hk
        exact h ⟨i, by simpa using List.mem_range.mp hi, nb, hnb, hk⟩
      simp only [hnb, setEdgeClosed_edgeClosed, if_neg hki]
      exact hs

theorem closeNode_edgeClosed_incident (W H : Nat) (st : GridState) (m : Coord) (i : Nat)
    (hi : i < 8) (nb : Coord) (hnb : getNeighbor W H m.1 m.2 i = some nb)
    (hopen : st.nodeClosed m = false) :
    (closeNode W H st m).edgeClosed (edgeIdAt m i nb) = true := by
  unfold closeNode
  rw [if_neg (by simp [hopen])]
  rw [setNodeClosed_edgeClosed]
  rw [range8_decomp i hi, List.foldl_append, List.foldl_cons]
  refine foldl_induction (P := fun s : GridState => s.edgeClosed (edgeIdAt m i nb) = true) _ _ _ ?_
    (fun s j _ hs => ?_)
  · -- the step at index i itself closes the edge
    rw [hnb]
    simp [setEdgeClosed_edgeClosed]
  · cases hj : getNeighbor W H m.1 m.2 j with
    | none => simpa [hj] using hs
    | some nbj =>
      simp only [hj, setEdgeClosed_edgeClosed]
      split_ifs <;> simp [hs]

@[simp] theorem openNode_rawCost (W H : Nat) (st : GridState) (m : Coord) (k : EdgeId) :
    (openNode W H st m).rawCost k = st.rawCost k := by
  unfold openNode
  split_ifs with h
  · rw [setNodeClosed_rawCost]
    refine foldl_induction (P := fun s : GridState => s.rawCost k = st.rawCost k) _ _ _ rfl
      (fun s i _ hs => ?_)
    cases hnb : getNeighbor W H m.1 m.2 i with
    | none => simpa [hnb] using hs
    | some nb =>
      simp only [hnb]
      split_ifs <;> simpa using hs
  · rfl

@[simp] theorem openNode_resEdges (W H : Nat) (st : GridState) (m : Coord) (k : EdgeId) :
    (openNode W H st m).resEdges k = st.resEdges k := by
  unfold openNode
  split_ifs with h
  · rw [setNodeClosed_resEdges]
    refine foldl_induction (P := fun s : GridState => s.resEdges k = st.resEdges k) _ _ _ rfl
      (fun s i _ hs => ?_)
    cases hnb : getNeighbor W H m.1 m.2 i with
    | none => simpa [hnb] using hs
    | some nb =>
      simp only [hnb]
      split_ifs <;> simpa using hs
  · rfl

theorem openNode_nodeClosed (W H : Nat) (st : GridState) (m : Coord) (c : Coord) :
    (openNode W H st m).nodeClosed c = if c = m then false else st.nodeClosed c := by
  have hfold : ∀ s0 : GridState,
      ((List.range 8).foldl (fun s i =>
        match getNeighbor W H m.1 m.2 i with
        | none => s
        | some nb =>
          if s.nodeClosed nb then s
          else if (s.resEdges (edgeIdAt m i nb)).length == 0 then
            setEdgeClosed s (edgeIdAt m i nb) false
          else s) s0).nodeClosed c = s0.nodeClosed c := by
    intro s0
    refine foldl_induction (P := fun s : GridState => s.nodeClosed c = s0.nodeClosed c) _ _ _ rfl
      (fun s i _ hs => ?_)
    cases hnb : getNeighbor W H m.1 m.2 i with
    | none => simpa [hnb] using hs
    | some nb =>
      simp only [hnb]
      split_ifs <;> simpa using hs
  unfold openNode
  cases hm : st.nodeClosed m with
  | true =>
    rw [if_pos rfl]
    rw [setNodeClosed_nodeClosed]
    by_cases hc : c = m
    · simp [hc]
    · rw [if_neg hc, if_neg hc]
      exact hfold st
  | false =>
    rw [if_neg (by simp)]
    by_cases hc : c = m
    · subst hc
      rw [if_pos rfl]
      exact hm
    · rw [if_neg hc]

theorem openNode_edgeClosed_false (W H : Nat) (st : GridState) (m : Coord) (k : EdgeId)
    (h : st.edgeClosed k = false) : (openNode W H st m).edgeClosed k = false := by
  unfold openNode
  split_ifs with hcl
  · rw [setNodeClosed_edgeClosed]
    refine foldl_induction (P := fun s : GridState => s.edgeClosed k = false) _ _ _ h
      (fun s i _ hs => ?_)
    cases hnb : getNeighbor W H m.1 m.2 i with
    | none => simpa [hnb] using hs
    | some nb =>
      simp only [hnb]
      split_ifs with h1 h2
      · exact hs
      · rw [setEdgeClosed_edgeClosed]
        split_ifs <;> simp [hs]
      · exact hs
  · exact h

theorem openNode_edgeClosed_not_incident (W H : Nat) (st : GridState) (m : Coord) (k : EdgeId)
    (h : ¬IncidentTo W H m k) : (openNode W H st m).edgeClosed k = st.edgeClosed k := by
  unfold openNode
  split_ifs with hcl
  · rw [setNodeClosed_edgeClosed]
    refine foldl_induction (P := fun s : GridState => s.edgeClosed k = st.edgeClosed k) _ _ _ rfl
      (fun s i hi hs => ?_)
    cases hnb : getNeighbor W H m.1 m.2 i with
    | none => simpa [hnb] using hs
    | some nb =>
      have hki : k ≠ edgeIdAt m i nb := by
        intro hk
        exact h ⟨i, by simpa using List.mem_range.mp hi, nb, hnb, hk⟩
      simp only [hnb]
      split_ifs with h1 h2
      · exact hs
      · rw [setEdgeClosed_edgeClosed, if_neg hki]
        exact hs
      · exact hs
  · rfl

theorem ncUpd_same (a : NodeCost) (k : Nat) (v : ℚ) : ncUpd a k v k = v := by
  simp [ncUpd]

theorem ncUpd_ne (a : NodeCost) (k : Nat) (v : ℚ) (k' : Nat) (h : k' ≠ k) :
    ncUpd a k v k' = a k' := by
  simp [ncUpd, h]

theorem optMap_add_sub (o : Option ℚ) (a : ℚ) : (o.map (· + a)).map (· - a) = o := by
  cases o <;> simp

theorem gsPair_fst (a : GridState) (b : NodeCost) : (a, b).1 = a := rfl

theorem gsPair_snd (a : GridState) (b : NodeCost) : (a, b).2 = b := rfl

theorem optMap_sub_zero (o : Option ℚ) : o.map (· - 0) = o := by
  cases o <;> simp

/-- Only the two endpoints of an inter-cell edge are incident to it. -/
theorem incident_endpoint (W H : Nat) (hW : W < U64) (hH : H < U64)
    (n : Coord) (hnx : n.1 < W) (hny : n.2 < H) (i : Nat) (hi : i < 8) (nb : Coord)
    (hnb : getNeighbor W H n.1 n.2 i = some nb)
    (m : Coord) (hmx : m.1 < W) (hmy : m.2 < H)
    (hInc : IncidentTo W H m (edgeIdAt n i nb)) : m = n ∨ m = nb := by
  obtain ⟨l, hl, mb, hmb, hk⟩ := hInc
  rcases edgeIdAt_eq_cases W H hW hH m n mb nb l i hl hi hmx hmy hnx hny hmb hnb hk.symm with
    ⟨h1, _, _⟩ | ⟨h1, _, _⟩
  · exact Or.inl h1
  · exact Or.inr h1

/-- A far neighbour `nbj` (direction `j ≠ i`) is not an endpoint of the
edge leaving in direction `i`, hence not incident to it. -/
theorem not_incident_far (W H : Nat) (hW : W < U64) (hH : H < U64)
    (x y : Nat) (hx : x < W) (hy : y < H) (i : Nat) (hi : i < 8) (nb : Coord)
    (hnb : getNeighbor W H x y i = some nb) (j : Nat) (hj : j < 8) (hij : j ≠ i)
    (nbj : Coord) (hnbj : getNeighbor W H x y j = some nbj) :
    ¬IncidentTo W H nbj (edgeIdAt (x, y) i nb) := by
  intro hInc
  have hb := getNeighbor_some_bounds W H x y j nbj hnbj
  rcases incident_endpoint W H hW hH (x, y) hx hy i hi nb hnb nbj hb.1 hb.2 hInc with h | h
  · exact getNeighbor_ne_self W H x y j hW hH hx hy hj nbj hnbj h
  · exact getNeighbor_inj_dir W H x y j i hW hH hx hy hj hi hij nbj nb hnbj hnb h

/-- Edges leaving the same center in different directions have different
canonical keys. -/
theorem edgeIdAt_ne_dir (W H : Nat) (hW : W < U64) (hH : H < U64)
    (x y : Nat) (hx : x < W) (hy : y < H) (i : Nat) (hi : i < 8) (nb : Coord)
    (hnb : getNeighbor W H x y i = some nb) (j : Nat) (hj : j < 8) (hij : j ≠ i)
    (nbj : Coord) (hnbj : getNeighbor W H x y j = some nbj) :
    edgeIdAt (x, y) j nbj ≠ edgeIdAt (x, y) i nb := by
  intro h
  rcases edgeIdAt_eq_cases W H hW hH (x, y) (x, y) nbj nb j i hj hi hx hy hx hy hnbj hnb h with
    ⟨_, h2, _⟩ | ⟨h1, _, _⟩
  · exact hij h2
  · exact getNeighbor_ne_self W H x y i hW hH hx hy hi nb hnb h1.symm

/-- The loop body of `addCostVector` at a live slot, in closed form. -/
theorem applyStep_at (W H : Nat) (n : Coord) (c : NodeCost) (sv : GridState × NodeCost)
    (i : Nat) (nb : Coord) (hnb : getNeighbor W H n.1 n.2 i = some nb) :
    applyStep W H n c sv i =
      if c i < -1 then
        if sv.1.edgeClosed (edgeIdAt n i nb) then (sv.1, ncUpd sv.2 i 0)
        else (closeNode W H (setEdgeClosed sv.1 (edgeIdAt n i nb) true) nb,
          ncUpd sv.2 i (c i))
      else (setRawCost sv.1 (edgeIdAt n i nb)
        ((sv.1.rawCost (edgeIdAt n i nb)).map (· + c i)), ncUpd sv.2 i (c i)) := by
  unfold applyStep
  rw [hnb]

/-- The loop body of `removeCostVector` at a live slot, in closed form. -/
theorem unapplyStep_at (W H : Nat) (n : Coord) (v : NodeCost) (s : GridState)
    (i : Nat) (nb : Coord) (hnb : getNeighbor W H n.1 n.2 i = some nb) :
    unapplyStep W H n v s i =
      if v i < -1 then openNode W H (setEdgeClosed s (edgeIdAt n i nb) false) nb
      else setRawCost s (edgeIdAt n i nb) ((s.rawCost (edgeIdAt n i nb)).map (· - v i)) := by
  unfold unapplyStep
  rw [hnb]

/-- A slot `j ≠ i` of the `addCostVector` loop does not touch the edge of
slot `i`, nor the inverse-vector slot `i`. -/
theorem applyStep_frame (W H : Nat) (hW : W < U64) (hH : H < U64) (x y : Nat)
    (hx : x < W) (hy : y < H) (c : NodeCost) (i : Nat) (hi : i < 8) (nb : Coord)
    (hnb : getNeighbor W H x y i = some nb) (j : Nat) (hj : j < 8) (hij : j ≠ i)
    (sv : GridState × NodeCost) :
    (applyStep W H (x, y) c sv j).1.edgeClosed (edgeIdAt (x, y) i nb) =
      sv.1.edgeClosed (edgeIdAt (x, y) i nb) ∧
    (applyStep W H (x, y) c sv j).1.rawCost (edgeIdAt (x, y) i nb) =
      sv.1.rawCost (edgeIdAt (x, y) i nb) ∧
    (applyStep W H (x, y) c sv j).2 i = sv.2 i := by
  cases hnbj : getNeighbor W H x y j with
  | none =>
    unfold applyStep
    rw [hnbj]
    exact ⟨rfl, rfl, rfl⟩
  | some nbj =>
    have hkne : edgeIdAt (x, y) j nbj ≠ edgeIdAt (x, y) i nb :=
      edgeIdAt_ne_dir W H hW hH x y hx hy i hi nb hnb j hj hij nbj hnbj
    have hfar : ¬IncidentTo W H nbj (edgeIdAt (x, y) i nb) :=
      not_incident_far W H hW hH x y hx hy i hi nb hnb j hj hij nbj hnbj
    rw [applyStep_at W H (x, y) c sv j nbj hnbj]
    split_ifs with h1 h2
    · exact ⟨rfl, rfl, ncUpd_ne _ _ _ _ (Ne.symm hij)⟩
    · refine ⟨?_, ?_, ncUpd_ne _ _ _ _ (Ne.symm hij)⟩
      · rw [closeNode_edgeClosed_not_incident W H _ nbj _ hfar, setEdgeClosed_edgeClosed,
          if_neg (Ne.symm hkne)]
      · rw [closeNode_rawCost, setEdgeClosed_rawCost]
    · refine ⟨rfl, ?_, ncUpd_ne _ _ _ _ (Ne.symm hij)⟩
      rw [setRawCost_rawCost, if_neg (Ne.symm hkne)]

/-- A slot `j ≠ i` of the `removeCostVector` loop does not touch the edge
of slot `i`. -/
theorem unapplyStep_frame (W H : Nat) (hW : W < U64) (hH : H < U64) (x y : Nat)
    (hx : x < W) (hy : y < H) (v : NodeCost) (i : Nat) (hi : i < 8) (nb : Coord)
    (hnb : getNeighbor W H x y i = some nb) (j : Nat) (hj : j < 8) (hij : j ≠ i)
    (s : GridState) :
    (unapplyStep W H (x, y) v s j).edgeClosed (edgeIdAt (x, y) i nb) =
      s.edgeClosed (edgeIdAt (x, y) i nb) ∧
    (unapplyStep W H (x, y) v s j).rawCost (edgeIdAt (x, y) i nb) =
      s.rawCost (edgeIdAt (x, y) i nb) := by
  cases hnbj : getNeighbor W H x y j with
  | none =>
    unfold unapplyStep
    rw [hnbj]
    exact ⟨rfl, rfl⟩
  | some nbj =>
    have hkne : edgeIdAt (x, y) j nbj ≠ edgeIdAt (x, y) i nb :=
      edgeIdAt_ne_dir W H hW hH x y hx hy i hi nb hnb j hj hij nbj hnbj
    have hfar : ¬IncidentTo W H nbj (edgeIdAt (x, y) i nb) :=
      not_incident_far W H hW hH x y hx hy i hi nb hnb j hj hij nbj hnbj
    rw [unapplyStep_at W H (x, y) v s j nbj hnbj]
    split_ifs with h1
    · refine ⟨?_, ?_⟩
      · rw [openNode_edgeClosed_not_incident W H _ nbj _ hfar, setEdgeClosed_edgeClosed,
          if_neg (Ne.symm hkne)]
      · rw [openNode_rawCost, setEdgeClosed_rawCost]
    · refine ⟨rfl, ?_⟩
      rw [setRawCost_rawCost, if_neg (Ne.symm hkne)]

theorem foldl_applyStep_frame (W H : Nat) (hW : W < U64) (hH : H < U64) (x y : Nat)
    (hx : x < W) (hy : y < H) (c : NodeCost) (i : Nat) (hi : i < 8) (nb : Coord)
    (hnb : getNeighbor W H x y i = some nb) (l : List Nat) :
    (∀ j ∈ l, j < 8 ∧ j ≠ i) → ∀ sv : GridState × NodeCost,
    (l.foldl (applyStep W H (x, y) c) sv).1.edgeClosed (edgeIdAt (x, y) i nb) =
      sv.1.edgeClosed (edgeIdAt (x, y) i nb) ∧
    (l.foldl (applyStep W H (x, y) c) sv).1.rawCost (edgeIdAt (x, y) i nb) =
      sv.1.rawCost (edgeIdAt (x, y) i nb) ∧
    (l.foldl (applyStep W H (x, y) c) sv).2 i = sv.2 i := by
  induction l with
  | nil => exact fun _ sv => ⟨rfl, rfl, rfl⟩
  | cons j js ih =>
    intro hl sv
    obtain ⟨hj8, hji⟩ := hl j (List.mem_cons_self j js)
    obtain ⟨e1, e2, e3⟩ :=
      applyStep_frame W H hW hH x y hx hy c i hi nb hnb j hj8 hji sv
    obtain ⟨f1, f2, f3⟩ := ih (fun j' hj' => hl j' (List.mem_cons_of_mem j hj'))
      (applyStep W H (x, y) c sv j)
    rw [List.foldl_cons]
    exact ⟨f1.trans e1, f2.trans e2, f3.trans e3⟩

theorem foldl_unapplyStep_frame (W H : Nat) (hW : W < U64) (hH : H < U64) (x y : Nat)
    (hx : x < W) (hy : y < H) (v : NodeCost) (i : Nat) (hi : i < 8) (nb : Coord)
    (hnb : getNeighbor W H x y i = some nb) (l : List Nat) :
    (∀ j ∈ l, j < 8 ∧ j ≠ i) → ∀ s : GridState,
    (l.foldl (unapplyStep W H (x, y) v) s).edgeClosed (edgeIdAt (x, y) i nb) =
      s.edgeClosed (edgeIdAt (x, y) i nb) ∧
    (l.foldl (unapplyStep W H (x, y) v) s).rawCost (edgeIdAt (x, y) i nb) =
      s.rawCost (edgeIdAt (x, y) i nb) := by
  induction l with
  | nil => exact fun _ s => ⟨rfl, rfl⟩
  | cons j js ih =>
    intro hl s
    obtain ⟨hj8, hji⟩ := hl j (List.mem_cons_self j js)
    obtain ⟨e1, e2⟩ :=
      unapplyStep_frame W H hW hH x y hx hy v i hi nb hnb j hj8 hji s
    obtain ⟨f1, f2⟩ := ih (fun j' hj' => hl j' (List.mem_cons_of_mem j hj'))
      (unapplyStep W H (x, y) v s j)
    rw [List.foldl_cons]
    exact ⟨f1.trans e1, f2.trans e2⟩

/-- Effect of `addCostVector` on the edge of slot `i` and the inverse
vector's slot `i`, by case on the slot value and the edge's prior flag. -/
theorem addCostVector_at (W H : Nat) (hW : W < U64) (hH : H < U64) (x y : Nat)
    (hx : x < W) (hy : y < H) (st : GridState) (c : NodeCost)
    (i : Nat) (hi : i < 8) (nb : Coord) (hnb : getNeighbor W H x y i = some nb) :
    (¬(c i < -1) →
      (addCostVector W H st (x, y) c).1.edgeClosed (edgeIdAt (x, y) i nb) =
        st.edgeClosed (edgeIdAt (x, y) i nb) ∧
      (addCostVector W H st (x, y) c).1.rawCost (edgeIdAt (x, y) i nb) =
        (st.rawCost (edgeIdAt (x, y) i nb)).map (· + c i) ∧
      (addCostVector W H st (x, y) c).2 i = c i) ∧
    (c i < -1 → st.edgeClosed (edgeIdAt (x, y) i nb) = true →
      (addCostVector W H st (x, y) c).1.edgeClosed (edgeIdAt (x, y) i nb) = true ∧
      (addCostVector W H st (x, y) c).1.rawCost (edgeIdAt (x, y) i nb) =
        st.rawCost (edgeIdAt (x, y) i nb) ∧
      (addCostVector W H st (x, y) c).2 i = 0) ∧
    (c i < -1 → st.edgeClosed (edgeIdAt (x, y) i nb) = false →
      (addCostVector W H st (x, y) c).1.edgeClosed (edgeIdAt (x, y) i nb) = true ∧
      (addCostVector W H st (x, y) c).1.rawCost (edgeIdAt (x, y) i nb) =
        st.rawCost (edgeIdAt (x, y) i nb) ∧
      (addCostVector W H st (x, y) c).2 i = c i) := by
  have hmem1 : ∀ j ∈ List.range i, j < 8 ∧ j ≠ i := by
    intro j hj
    have := List.mem_range.mp hj
    omega
  have hmem2 : ∀ j ∈ (List.range (7 - i)).map (fun t => i + 1 + t), j < 8 ∧ j ≠ i := by
    intro j hj
    obtain ⟨t, ht, rfl⟩ := List.mem_map.mp hj
    have := List.mem_range.mp ht
    omega
  rw [addCostVector, range8_decomp i hi]
  simp only [List.foldl_append, List.foldl_cons]
  obtain ⟨a1, a2, a3⟩ := foldl_applyStep_frame W H hW hH x y hx hy c i hi nb hnb
    (List.range i) hmem1 (st, fun _ => 0)
  dsimp only at a1 a2 a3
  refine ⟨fun hs => ?_, fun hs hcl => ?_, fun hs hcl => ?_⟩
  · rw [applyStep_at W H (x, y) c _ i nb hnb, if_neg hs]
    obtain ⟨b1, b2, b3⟩ := foldl_applyStep_frame W H hW hH x y hx hy c i hi nb hnb
      ((List.range (7 - i)).map (fun t => i + 1 + t)) hmem2 _
    refine ⟨?_, ?_, ?_⟩
    · rw [b1, gsPair_fst, setRawCost_edgeClosed, a1]
    · rw [b2, gsPair_fst, setRawCost_rawCost, if_pos rfl, a2]
    · rw [b3, gsPair_snd, ncUpd_same]
  · rw [applyStep_at W H (x, y) c _ i nb hnb, if_pos hs, if_pos (a1.trans hcl)]
    obtain ⟨b1, b2, b3⟩ := foldl_applyStep_frame W H hW hH x y hx hy c i hi nb hnb
      ((List.range (7 - i)).map (fun t => i + 1 + t)) hmem2 _
    refine ⟨?_, ?_, ?_⟩
    · rw [b1, gsPair_fst]
      exact a1.trans hcl
    · rw [b2, gsPair_fst, a2]
    · rw [b3, gsPair_snd, ncUpd_same]
  · have hopen : ¬((List.foldl (applyStep W H (x, y) c) (st, fun _ => 0)
        (List.range i)).1.edgeClosed (edgeIdAt (x, y) i nb) = true) := by
      rw [a1, hcl]
      simp
    rw [applyStep_at W H (x, y) c _ i nb hnb, if_pos hs, if_neg hopen]
    obtain ⟨b1, b2, b3⟩ := foldl_applyStep_frame W H hW hH x y hx hy c i hi nb hnb
      ((List.range (7 - i)).map (fun t => i + 1 + t)) hmem2 _
    refine ⟨?_, ?_, ?_⟩
    · rw [b1, gsPair_fst]
      exact closeNode_edgeClosed_mono W H _ nb _ (by rw [setEdgeClosed_edgeClosed, if_pos rfl])
    · rw [b2, gsPair_fst, closeNode_rawCost, setEdgeClosed_rawCost, a2]
    · rw [b3, gsPair_snd, ncUpd_same]

/-- Effect of `removeCostVector` on the edge of slot `i`, by case on the
inverse vector's slot value. -/
theorem removeCostVector_at (W H : Nat) (hW : W < U64) (hH : H < U64) (x y : Nat)
    (hx : x < W) (hy : y < H) (s : GridState) (v : NodeCost)
    (i : Nat) (hi : i < 8) (nb : Coord) (hnb : getNeighbor W H x y i = some nb) :
    (¬(v i < -1) →
      (removeCostVector W H s (x, y) v).edgeClosed (edgeIdAt (x, y) i nb) =
        s.edgeClosed (edgeIdAt (x, y) i nb) ∧
      (removeCostVector W H s (x, y) v).rawCost (edgeIdAt (x, y) i nb) =
        (s.rawCost (edgeIdAt (x, y) i nb)).map (· - v i)) ∧
    (v i < -1 →
      (removeCostVector W H s (x, y) v).edgeClosed (edgeIdAt (x, y) i nb) = false ∧
      (removeCostVector W H s (x, y) v).rawCost (edgeIdAt (x, y) i nb) =
        s.rawCost (edgeIdAt (x, y) i nb)) := by
  have hmem1 : ∀ j ∈ List.range i, j < 8 ∧ j ≠ i := by
    intro j hj
    have := List.mem_range.mp hj
    omega
  have hmem2 : ∀ j ∈ (List.range (7 - i)).map (fun t => i + 1 + t), j < 8 ∧ j ≠ i := by
    intro j hj
    obtain ⟨t, ht, rfl⟩ := List.mem_map.mp hj
    have := List.mem_range.mp ht
    omega
  rw [removeCostVector, range8_decomp i hi]
  simp only [List.foldl_append, List.foldl_cons]
  obtain ⟨a1, a2⟩ := foldl_unapplyStep_frame W H hW hH x y hx hy v i hi nb hnb
    (List.range i) hmem1 s
  refine ⟨fun hs => ?_, fun hs => ?_⟩
  · rw [unapplyStep_at W H (x, y) v _ i nb hnb, if_neg hs]
    obtain ⟨b1, b2⟩ := foldl_unapplyStep_frame W H hW hH x y hx hy v i hi nb hnb
      ((List.range (7 - i)).map (fun t => i + 1 + t)) hmem2 _
    refine ⟨?_, ?_⟩
    · rw [b1, setRawCost_edgeClosed, a1]
    · rw [b2, setRawCost_rawCost, if_pos rfl, a2]
  · rw [unapplyStep_at W H (x, y) v _ i nb hnb, if_pos hs]
    obtain ⟨b1, b2⟩ := foldl_unapplyStep_frame W H hW hH x y hx hy v i hi nb hnb
      ((List.range (7 - i)).map (fun t => i + 1 + t)) hmem2 _
    refine ⟨?_, ?_⟩
    · rw [b1]
      exact openNode_edgeClosed_false W H _ nb _ (by rw [setEdgeClosed_edgeClosed, if_pos rfl])
    · rw [b2, openNode_rawCost, setEdgeClosed_rawCost, a2]

/-- C1: for every grid node and every NodeCost vector whose slots are
each either purely additive (`> −1`) or the closed sentinel (`≤ −1`),
applying the vector with `addCostVector` and then removing the returned
inverse with `removeCostVector` restores the raw cost and the closed
flag of every inter-cell edge incident to the node's ports. -/
theorem claim_C1 (W H : Nat) (hW : W < U64) (hH : H < U64) (x y : Nat)
    (hx : x < W) (hy : y < H) (st : GridState) (c : NodeCost)
    (hpure : ∀ d, d < 8 → -1 < c d ∨ c d ≤ -1)
    (i : Nat) (hi : i < 8) (nb : Coord)
    (hnb : getNeighbor W H x y i = some nb) :
    (removeCostVector W H (addCostVector W H st (x, y) c).1 (x, y)
        (addCostVector W H st (x, y) c).2).edgeClosed (edgeIdAt (x, y) i nb) =
      st.edgeClosed (edgeIdAt (x, y) i nb) ∧
    (removeCostVector W H (addCostVector W H st (x, y) c).1 (x, y)
        (addCostVector W H st (x, y) c).2).rawCost (edgeIdAt (x, y) i nb) =
      st.rawCost (edgeIdAt (x, y) i nb) := by
  obtain ⟨hAdd, hSenC, hSenO⟩ :=
    addCostVector_at W H hW hH x y hx hy st c i hi nb hnb
  obtain ⟨hRadd, hRsen⟩ := removeCostVector_at W H hW hH x y hx hy
    (addCostVector W H st (x, y) c).1 (addCostVector W H st (x, y) c).2 i hi nb hnb
  by_cases hs : c i < -1
  · cases hcl : st.edgeClosed (edgeIdAt (x, y) i nb) with
    | true =>
      obtain ⟨e1, e2, e3⟩ := hSenC hs hcl
      have hnot : ¬((addCostVector W H st (x, y) c).2 i < -1) := by
        rw [e3]
        norm_num
      obtain ⟨q1, q2⟩ := hRadd hnot
      refine ⟨?_, ?_⟩
      · rw [q1, e1]
      · rw [q2, e2, e3, optMap_sub_zero]
    | false =>
      obtain ⟨e1, e2, e3⟩ := hSenO hs hcl
      have hsen2 : (addCostVector W H st (x, y) c).2 i < -1 := by
        rw [e3]
        exact hs
      obtain ⟨q1, q2⟩ := hRsen hsen2
      refine ⟨?_, ?_⟩
      · rw [q1]
      · rw [q2, e2]
  · obtain ⟨e1, e2, e3⟩ := hAdd hs
    have hnot : ¬((addCostVector W H st (x, y) c).2 i < -1) := by
      rw [e3]
      exact hs
    obtain ⟨q1, q2⟩ := hRadd hnot
    refine ⟨?_, ?_⟩
    · rw [q1, e1]
    · rw [q2, e2, e3, optMap_add_sub]

theorem claim_C1_witness :
    ((3 : Nat) < U64) ∧ (∀ d, d < 8 → -1 < cSample d ∨ cSample d ≤ -1) ∧
    getNeighbor 3 3 1 1 0 = some (1, 2) ∧
    ((removeCostVector 3 3 (addCostVector 3 3 stSample (1, 1) cSample).1 (1, 1)
        (addCostVector 3 3 stSample (1, 1) cSample).2).edgeClosed (edgeIdAt (1, 1) 0 (1, 2)) =
      stSample.edgeClosed (edgeIdAt (1, 1) 0 (1, 2)) ∧
      (removeCostVector 3 3 (addCostVector 3 3 stSample (1, 1) cSample).1 (1, 1)
        (addCostVector 3 3 stSample (1, 1) cSample).2).rawCost (edgeIdAt (1, 1) 0 (1, 2)) =
      stSample.rawCost (edgeIdAt (1, 1) 0 (1, 2))) :=
  ⟨by decide, by decide, by decide,
    claim_C1 3 3 (by decide) (by decide) 1 1 (by decide) (by decide) stSample cSample
      (by decide) 0 (by decide) (1, 2) (by decide)⟩

/-- C3: if an inter-cell edge incident to one of `n`'s ports has a
non-empty reserved-edges set and is closed before `openNode n`, it is
still closed afterwards (`openNode` re-opens an incident edge only when
its reserved-edges set is empty). -/
theorem claim_C3 (W H : Nat) (st : GridState) (n : Coord) (i : Nat) (nb : Coord)
    (hnb : getNeighbor W H n.1 n.2 i = some nb)
    (hres : st.resEdges (edgeIdAt n i nb) ≠ [])
    (hclosed : st.edgeClosed (edgeIdAt n i nb) = true) :
    (openNode W H st n).edgeClosed (edgeIdAt n i nb) = true := by
  unfold openNode
  cases hm : st.nodeClosed n with
  | false => rw [if_neg (by simp)]; exact hclosed
  | true =>
    rw [if_pos rfl, setNodeClosed_edgeClosed]
    refine (foldl_induction
      (P := fun s : GridState => s.edgeClosed (edgeIdAt n i nb) = true ∧
        s.resEdges (edgeIdAt n i nb) = st.resEdges (edgeIdAt n i nb)) _ _ _
      ⟨hclosed, rfl⟩ (fun s j _ hs => ?_)).1
    cases hj : getNeighbor W H n.1 n.2 j with
    | none => simpa [hj] using hs
    | some nbj =>
      simp only [hj]
      split_ifs with h1 h2
      · exact hs
      · by_cases hk : edgeIdAt n i nb = edgeIdAt n j nbj
        · exfalso
          rw [← hk] at h2
          have hlen : (s.resEdges (edgeIdAt n i nb)).length = 0 := by
            simpa using h2
          rw [hs.2] at hlen
          exact hres (List.length_eq_zero.mp hlen)
        · exact ⟨by rw [setEdgeClosed_edgeClosed, if_neg hk]; exact hs.1,
            by rw [setEdgeClosed_resEdges]; exact hs.2⟩
      · exact hs

theorem claim_C3_witness :
    getNeighbor 3 3 1 1 0 = some (1, 2) ∧
    (GridState.mk (fun _ => true) (fun _ => true) (fun _ => some 0) (fun _ => [4])).resEdges
      (edgeIdAt (1, 1) 0 (1, 2)) ≠ [] ∧
    (openNode 3 3 (GridState.mk (fun _ => true) (fun _ => true) (fun _ => some 0)
      (fun _ => [4])) (1, 1)).edgeClosed (edgeIdAt (1, 1) 0 (1, 2)) = true :=
  ⟨by decide, by decide,
    claim_C3 3 3 (GridState.mk (fun _ => true) (fun _ => true) (fun _ => some 0)
      (fun _ => [4])) (1, 1) 0 (1, 2) (by decide) (by decide) (by decide)⟩

/-- C10: `getNode` rejects any out-of-bounds coordinate, and at the grid
border `getNeighbor` returns none exactly when the directional offset
leaves the grid — including the unsigned wrap-around of `cx + dx` or
`cy + dy` when the offset is negative at coordinate 0. -/
theorem claim_C10 (W H cx cy d : Nat) (hW : W < U64) (hH : H < U64)
    (hx : cx < W) (hy : cy < H) (hd : d < 8) :
    (∀ x y : Nat, W ≤ x ∨ H ≤ y → getNode W H x y = none) ∧
    (getNeighbor W H cx cy d = none ↔
      ¬(0 ≤ (cx : Int) + offX d ∧ (cx : Int) + offX d < (W : Int) ∧
        0 ≤ (cy : Int) + offY d ∧ (cy : Int) + offY d < (H : Int))) := by
  constructor
  · intro x y hxy
    unfold getNode
    rw [if_pos hxy]
  · cases hgn : getNeighbor W H cx cy d with
    | none =>
      refine iff_of_true rfl ?_
      rintro ⟨h1, h2, h3, h4⟩
      have hsome : getNeighbor W H cx cy d =
          some (((cx : Int) + offX d).toNat, ((cy : Int) + offY d).toNat) := by
        rw [getNeighbor_some_iff W H cx cy d hW hH hx hy hd]
        refine ⟨?_, ?_, ?_, ?_⟩ <;> dsimp only <;> omega
      rw [hgn] at hsome
      exact absurd hsome (by simp)
    | some nb =>
      obtain ⟨e1, e2, e3, e4⟩ := (getNeighbor_some_iff W H cx cy d hW hH hx hy hd nb).mp hgn
      refine iff_of_false (by simp) ?_
      intro hr
      exact hr ⟨by omega, by omega, by omega, by omega⟩

theorem claim_C10_witness :
    ((3 : Nat) < U64) ∧ ((0 : Nat) < 3) ∧ ((5 : Nat) < 8) ∧
    ((∀ x y : Nat, 3 ≤ x ∨ 3 ≤ y → getNode 3 3 x y = none) ∧
      (getNeighbor 3 3 0 0 5 = none ↔
        ¬(0 ≤ (0 : Int) + offX 5 ∧ (0 : Int) + offX 5 < (3 : Int) ∧
          0 ≤ (0 : Int) + offY 5 ∧ (0 : Int) + offY 5 < (3 : Int)))) :=
  ⟨by decide, by decide, by decide,
    claim_C10 3 3 0 0 5 (by decide) (by decide) (by decide) (by decide) (by decide)⟩

/-- C5: the spacer is not actually clamped.  At `cellSize = 1`,
`spacer = 10`, the member `_spacer` keeps the raw value 10 (the clamp in
the constructor body only reassigns the dead local), and port 0 of cell
`(0, 0)` sits at offset 10 from its center — far beyond `cellSize/2`. -/
theorem claim_C5 :
    memberSpacer (1 : ℚ) 10 = 10 ∧
    clampedSpacerLocal (1 : ℚ) 10 = 1 / 2 ∧
    portPos ⟨0, 0, 1, 10, ⟨1, 1, 1, 0, 1, 2, 3⟩⟩ 0 0 0 = (0, 10) ∧
    ¬((10 : ℚ) ≤ 1 / 2) := by
  refine ⟨rfl, ?_, ?_, by norm_num⟩
  · norm_num [clampedSpacerLocal]
  · have hx : xiOf 0 = 0 := by decide
    have hy : yiOf 0 = 1 := by decide
    norm_num [portPos, centerPos, memberSpacer, hx, hy, Prod.ext_iff]

/-- C6 counterexample: with `verticalPen = 1/2` (penalties
`⟨1/2, 3, 3, 0, 1, 2, 3⟩`, satisfying `p_0 < p_135 < p_90 < p_45`) and
cells `(0,0)`, `(1,0)`, the code returns 0 while the claimed exact
formula `minHops·min(...) + (minHops−1)·(p_45−p_135)` gives `1/2`: the
`size_t` locals truncate each product. -/
theorem claim_C6_counterexample :
    heurCost ⟨1/2, 3, 3, 0, 1, 2, 3⟩ 0 0 1 0 = 0 ∧
    ((max (Int.natAbs ((1 : Int) - 0)) (Int.natAbs ((0 : Int) - 0)) : ℚ) *
        min (1/2 : ℚ) (min 3 3) +
      ((max (Int.natAbs ((1 : Int) - 0)) (Int.natAbs ((0 : Int) - 0)) - 1 : ℕ) : ℚ) *
        ((3 : ℚ) - 1)) = 1 / 2 ∧
    (0 : ℚ) ≠ 1 / 2 := by
  refine ⟨?_, by norm_num, by norm_num⟩
  norm_num [heurCost, truncD]

/-- C6, amended: for distinct cells `heurCost` returns
`⌊minHops · min(verticalPen, horizontalPen, diagonalPen)⌋ +
⌊(minHops−1) · (p_45 − p_135)⌋` (each product truncated through the
`size_t` locals), with `minHops = max(|xb−xa|, |yb−ya|)`; the value is
always non-negative; for equal cells it returns 0. -/
theorem claim_C6 (c : Penalties) (xa ya xb yb : Int) :
    (xa = xb ∧ ya = yb → heurCost c xa ya xb yb = 0) ∧
    (¬(xa = xb ∧ ya = yb) →
      heurCost c xa ya xb yb =
        ((⌊(max (xb - xa).natAbs (yb - ya).natAbs : ℚ) *
              min c.verticalPen (min c.horizontalPen c.diagonalPen)⌋.toNat +
          ⌊((max (xb - xa).natAbs (yb - ya).natAbs - 1 : ℕ) : ℚ) *
              (c.p_45 - c.p_135)⌋.toNat : ℕ) : ℚ)) ∧
    0 ≤ heurCost c xa ya xb yb := by
  refine ⟨fun h => by rw [heurCost, if_pos h],
    fun h => by simp only [heurCost, if_neg h, truncD, Nat.cast_max], ?_⟩
  rw [heurCost]
  split_ifs
  · exact le_refl 0
  · exact Nat.cast_nonneg _

theorem claim_C6_witness :
    ¬((0 : Int) = 2 ∧ (0 : Int) = 0) ∧
    heurCost ⟨1, 1, 14/10, 0, 1, 2, 3⟩ 0 0 2 0 =
      ((⌊(max ((2 : Int) - 0).natAbs ((0 : Int) - 0).natAbs : ℚ) *
            min (1 : ℚ) (min 1 (14/10))⌋.toNat +
        ⌊((max ((2 : Int) - 0).natAbs ((0 : Int) - 0).natAbs - 1 : ℕ) : ℚ) *
            ((3 : ℚ) - 1)⌋.toNat : ℕ) : ℚ) :=
  ⟨by norm_num, (claim_C6 ⟨1, 1, 14/10, 0, 1, 2, 3⟩ 0 0 2 0).2.1 (by norm_num)⟩

/-- C9: if `e` is not a member of the comb node's edge ordering,
`spacingPenalty` returns the all-zero cost vector (after logging a
warning); being a pure query it leaves the grid state unmodified.  The
hypothesis `0 < u.adjSize` reflects that the C++ divides by the
adjacency-list size before the membership check. -/
theorem claim_C9 (W H : Nat) (st : GridState) (pens : Penalties) (n : Coord)
    (u : CombNode) (e : Nat) (hadj : 0 < u.adjSize)
    (h : ordHas u.ordering e = false) :
    spacingPenalty W H st pens n u e = fun _ => 0 := by
  unfold spacingPenalty
  rw [h]
  rfl

theorem find?_append_of_false {α : Type} (p : α → Bool) (l1 l2 : List α) (d : α)
    (h1 : ∀ x ∈ l1, p x = false) (hd : p d = true) :
    (l1 ++ d :: l2).find? p = some d := by
  induction l1 with
  | nil => simpa using List.find?_cons_of_pos l2 hd
  | cons x xs ih =>
    rw [List.cons_append, List.find?_cons_of_neg _ (by simp [h1 x (List.mem_cons_self x xs)])]
    exact ih (fun y hy => h1 y (List.mem_cons_of_mem x hy))

theorem findSome?_append_of_none {α β : Type} (f : α → Option β) (l1 l2 : List α)
    (h : ∀ x ∈ l1, f x = none) : (l1 ++ l2).findSome? f = l2.findSome? f := by
  induction l1 with
  | nil => rfl
  | cons x xs ih =>
    rw [List.cons_append, List.findSome?_cons, h x (List.mem_cons_self x xs)]
    exact ih (fun y hy => h y (List.mem_cons_of_mem x hy))

theorem getNEdge_eq (W H : Nat) (hW : W < U64) (hH : H < U64) (a : Coord)
    (hax : a.1 < W) (hay : a.2 < H) (d : Nat) (hd : d < 8) (b : Coord)
    (hb : getNeighbor W H a.1 a.2 d = some b) :
    getNEdge W H a b = some (edgeIdAt a d b) := by
  unfold getNEdge
  rw [range8_decomp d hd,
    findSome?_append_of_none _ _ _ (fun i hi => ?_), List.findSome?_cons, hb]
  · simp
  · have hi8 : i < 8 := by have := List.mem_range.mp hi; omega
    have hid : i ≠ d := by have := List.mem_range.mp hi; omega
    cases hgi : getNeighbor W H a.1 a.2 i with
    | none => simp
    | some m =>
      have hne : m ≠ b := getNeighbor_inj_dir W H a.1 a.2 i d hW hH hax hay hi8 hd hid m b hgi hb
      simp [hgi, hne]

theorem off_cross (d : Nat) (hd : d < 8) (hodd : d % 2 = 1) :
    offX ((d + 1) % 8) - offX ((d + 7) % 8) = offX ((d + 2) % 8) ∧
    offY ((d + 1) % 8) - offY ((d + 7) % 8) = offY ((d + 2) % 8) := by
  interval_cases d <;> simp_all <;> decide

/-- C8, amended: after `balanceEdge a b` for the diagonal neighbour `b`
of `a` in direction `d`, the traversal edge `a—b` has cost `INF`
(impassable), both `a` and `b` are closed, and the crossing inter-cell
edge between the two off-axis neighbours has cost `INF` as well — the
code calls `setCost(INF)` on it; its closed flag is not touched (see the
counterexample). -/
theorem claim_C8 (W H : Nat) (hW : W < U64) (hH : H < U64) (st : GridState)
    (a b : Coord) (hax : a.1 < W) (hay : a.2 < H) (d : Nat) (hd : d < 8)
    (hodd : d % 2 = 1) (hb : getNeighbor W H a.1 a.2 d = some b)
    (na nb2 : Coord)
    (hna : getNeighbor W H a.1 a.2 ((d + 7) % 8) = some na)
    (hnb2 : getNeighbor W H a.1 a.2 ((d + 1) % 8) = some nb2) :
    (balanceEdge W H st a b).rawCost (edgeIdAt a d b) = none ∧
    (balanceEdge W H st a b).nodeClosed a = true ∧
    (balanceEdge W H st a b).nodeClosed b = true ∧
    (balanceEdge W H st a b).rawCost (edgeIdAt na ((d + 2) % 8) nb2) = none := by
  have hab : a ≠ b := by
    intro h
    exact getNeighbor_ne_self W H a.1 a.2 d hW hH hax hay hd b hb (by rw [← h])
  have hd17 : (d + 7) % 8 < 8 := by omega
  have hd11 : (d + 1) % 8 < 8 := by omega
  have hd12 : (d + 2) % 8 < 8 := by omega
  have hna_b := getNeighbor_some_bounds W H a.1 a.2 ((d + 7) % 8) na hna
  have hnb2_b := getNeighbor_some_bounds W H a.1 a.2 ((d + 1) % 8) nb2 hnb2
  -- the crossing edge: nb2 is the (d+2) mod 8 neighbour of na
  have hcross : getNeighbor W H na.1 na.2 ((d + 2) % 8) = some nb2 := by
    obtain ⟨e1, e2, _, _⟩ :=
      (getNeighbor_some_iff W H a.1 a.2 ((d + 7) % 8) hW hH hax hay hd17 na).mp hna
    obtain ⟨f1, f2, f3, f4⟩ :=
      (getNeighbor_some_iff W H a.1 a.2 ((d + 1) % 8) hW hH hax hay hd11 nb2).mp hnb2
    obtain ⟨hox, hoy⟩ := off_cross d hd hodd
    rw [getNeighbor_some_iff W H na.1 na.2 ((d + 2) % 8) hW hH hna_b.1 hna_b.2 hd12 nb2]
    exact ⟨by omega, by omega, f3, f4⟩
  have hNab : getNEdge W H a b = some (edgeIdAt a d b) :=
    getNEdge_eq W H hW hH a hax hay d hd b hb
  have hNcross : getNEdge W H na nb2 = some (edgeIdAt na ((d + 2) % 8) nb2) :=
    getNEdge_eq W H hW hH na hna_b.1 hna_b.2 ((d + 2) % 8) hd12 nb2 hcross
  have hdir : ((List.range 8).find? (fun i =>
      match getNeighbor W H a.1 a.2 i with
      | none => false
      | some nb => nb == b)).getD 8 = d := by
    rw [range8_decomp d hd, find?_append_of_false _ _ _ d (fun i hi => ?_) (by simp [hb])]
    · rfl
    · have hi8 : i < 8 := by have := List.mem_range.mp hi; omega
      have hid : i ≠ d := by have := List.mem_range.mp hi; omega
      cases hgi : getNeighbor W H a.1 a.2 i with
      | none => simp
      | some m =>
        have hne : m ≠ b :=
          getNeighbor_inj_dir W H a.1 a.2 i d hW hH hax hay hi8 hd hid m b hgi hb
        simp [hne]
  have hdodd : ((d == 1 || d == 3 || d == 5 || d == 7) : Bool) = true := by
    interval_cases d <;> simp_all
  unfold balanceEdge
  rw [if_neg hab, hdir]
  simp only [hNab, hdodd, hna, hnb2, hNcross, if_true]
  refine ⟨?_, ?_, ?_, ?_⟩
  · rw [setRawCost_rawCost]
    split_ifs with h
    · rfl
    · rw [closeNode_rawCost, closeNode_rawCost, setRawCost_rawCost, if_pos rfl]
  · rw [setRawCost_nodeClosed, closeNode_nodeClosed, closeNode_nodeClosed]
    split_ifs <;> simp_all
  · rw [setRawCost_nodeClosed, closeNode_nodeClosed]
    rw [if_pos rfl]
  · rw [setRawCost_rawCost, if_pos rfl]

/-- C8 counterexample to the claim as stated: on a 3×3 grid with
everything initially open, after `balanceEdge (0,0) (1,1)` the crossing
inter-cell edge between the off-axis neighbours `(0,1)` and `(1,0)` is
NOT closed (its closed flag is still `false`) — only its raw cost has
been set to `INF`. -/
theorem claim_C8_counterexample :
    getNEdge 3 3 (0, 1) (1, 0) = some (edgeIdAt (0, 1) 3 (1, 0)) ∧
    (balanceEdge 3 3 (GridState.mk (fun _ => false) (fun _ => false) (fun _ => some 0)
      (fun _ => [])) (0, 0) (1, 1)).edgeClosed (edgeIdAt (0, 1) 3 (1, 0)) = false ∧
    (balanceEdge 3 3 (GridState.mk (fun _ => false) (fun _ => false) (fun _ => some 0)
      (fun _ => [])) (0, 0) (1, 1)).rawCost (edgeIdAt (0, 1) 3 (1, 0)) = none := by
  refine ⟨by decide, by decide, by decide⟩

theorem claim_C8_witness :
    getNeighbor 3 3 0 0 1 = some (1, 1) ∧
    ((balanceEdge 3 3 (GridState.mk (fun _ => false) (fun _ => false) (fun _ => some 0)
        (fun _ => [])) (0, 0) (1, 1)).rawCost (edgeIdAt (0, 0) 1 (1, 1)) = none ∧
      (balanceEdge 3 3 (GridState.mk (fun _ => false) (fun _ => false) (fun _ => some 0)
        (fun _ => [])) (0, 0) (1, 1)).nodeClosed (0, 0) = true ∧
      (balanceEdge 3 3 (GridState.mk (fun _ => false) (fun _ => false) (fun _ => some 0)
        (fun _ => [])) (0, 0) (1, 1)).nodeClosed (1, 1) = true ∧
      (balanceEdge 3 3 (GridState.mk (fun _ => false) (fun _ => false) (fun _ => some 0)
        (fun _ => [])) (0, 0) (1, 1)).rawCost (edgeIdAt (0, 1) ((1 + 2) % 8) (1, 0)) = none) :=
  ⟨by decide,
    claim_C8 3 3 (by decide) (by decide)
      (GridState.mk (fun _ => false) (fun _ => false) (fun _ => some 0) (fun _ => []))
      (0, 0) (1, 1) (by decide) (by decide) 1 (by decide) (by decide) (by decide)
      (0, 1) (1, 0) (by decide) (by decide)⟩

/-- C7: for every center, the intra-cell bend edges are exactly the port
pairs at angular distance 2, 3 or 4 — twenty edges, none at distance 1 —
with distance-4 edges costing `p_45 − p_135`, distance-3 edges costing
`p_45`, and distance-2 edges costing `p_45 − p_135 + p_90`. -/
theorem claim_C7 (c : Penalties) :
    (intraCellEdges c).length = 20 ∧
    (∀ i j : Nat, i < j → j < 8 →
      ((∃ q, (i, j, q) ∈ intraCellEdges c) ↔ cycDist i j ≠ 1)) ∧
    (∀ i j q, (i, j, q) ∈ intraCellEdges c →
      i < j ∧ j < 8 ∧ cycDist i j ≠ 1 ∧
      q = (if cycDist i j = 4 then c.p_45 - c.p_135
        else if cycDist i j = 3 then c.p_45
        else c.p_45 - c.p_135 + c.p_90)) := by
  have hL : intraCellEdges c =
      [(0, 2, c.p_45 - c.p_135 + c.p_90), (0, 3, c.p_45), (0, 4, c.p_45 - c.p_135),
       (0, 5, c.p_45), (0, 6, c.p_45 - c.p_135 + c.p_90),
       (1, 3, c.p_45 - c.p_135 + c.p_90), (1, 4, c.p_45), (1, 5, c.p_45 - c.p_135),
       (1, 6, c.p_45), (1, 7, c.p_45 - c.p_135 + c.p_90),
       (2, 4, c.p_45 - c.p_135 + c.p_90), (2, 5, c.p_45), (2, 6, c.p_45 - c.p_135),
       (2, 7, c.p_45),
       (3, 5, c.p_45 - c.p_135 + c.p_90), (3, 6, c.p_45), (3, 7, c.p_45 - c.p_135),
       (4, 6, c.p_45 - c.p_135 + c.p_90), (4, 7, c.p_45),
       (5, 7, c.p_45 - c.p_135 + c.p_90)] := rfl
  refine ⟨by rw [hL]; rfl, ?_, ?_⟩
  · intro i j hij hj
    interval_cases j <;> interval_cases i <;> simp [hL, cycDist]
  · have hall : ∀ t ∈ intraCellEdges c,
        t.1 < t.2.1 ∧ t.2.1 < 8 ∧ cycDist t.1 t.2.1 ≠ 1 ∧
        t.2.2 = (if cycDist t.1 t.2.1 = 4 then c.p_45 - c.p_135
          else if cycDist t.1 t.2.1 = 3 then c.p_45
          else c.p_45 - c.p_135 + c.p_90) := by
      rw [hL]
      intro t ht
      simp only [List.mem_cons, List.not_mem_nil, or_false] at ht
      repeat' rcases ht with rfl | ht
      all_goals try subst ht
      all_goals norm_num [cycDist]
    intro i j q hmem
    exact hall (i, j, q) hmem

theorem claim_C7_witness :
    ((0 : Nat) < 2) ∧ ((2 : Nat) < 8) ∧
    ((∃ q, (0, 2, q) ∈ intraCellEdges ⟨1, 1, 1, 0, 1, 2, 3⟩) ↔ cycDist 0 2 ≠ 1) :=
  ⟨by decide, by decide, (claim_C7 ⟨1, 1, 1, 0, 1, 2, 3⟩).2.1 0 2 (by decide) (by decide)⟩

theorem claim_C9_witness :
    (0 < (1 : Nat)) ∧ ordHas [3] 7 = false ∧
    spacingPenalty 3 3 (GridState.mk (fun _ => false) (fun _ => false) (fun _ => some 0)
      (fun _ => [])) ⟨1, 1, 1, 0, 1, 2, 3⟩ (1, 1) ⟨1, [3]⟩ 7 = fun _ => 0 :=
  ⟨by decide, by decide,
    claim_C9 3 3 (GridState.mk (fun _ => false) (fun _ => false) (fun _ => some 0)
      (fun _ => [])) ⟨1, 1, 1, 0, 1, 2, 3⟩ (1, 1) ⟨1, [3]⟩ 7 (by decide) (by decide)⟩

end GridGraph

namespace ILP

theorem colsFold_eq (e : OptEdge) (lo : LineOcc) (row rowA : Nat) (m : Nat) :
    ∀ lp : LPState,
    (List.range m).foldl (fun l2 p =>
      let cp := addCol l2 (getILPVarName e lo.line p) 0
      addColToRow (addColToRow cp.1 row cp.2 1) (rowA + p) cp.2 1) lp =
    ⟨lp.rows,
     lp.cols ++ (List.range m).map (fun p => (getILPVarName e lo.line p, 0)),
     lp.entries ++ (List.range m).flatMap (fun p =>
       [((row, lp.cols.length + p, 1) : Nat × Nat × ℚ),
        (rowA + p, lp.cols.length + p, 1)])⟩ := by
  induction m with
  | zero =>
    intro lp
    simp
  | succ n ih =>
    intro lp
    rw [List.range_succ, List.foldl_append, ih lp, List.foldl_cons, List.foldl_nil]
    simp [addCol, addColToRow, List.range_succ, List.append_assoc]

theorem linesFold_eq (e : OptEdge) (rowA : Nat) (lines : List LineOcc) :
    ∀ lp : LPState,
    lines.foldl (fun l lo =>
      let rp := addRow l 1 RowType.fix
      (List.range e.card).foldl (fun l2 p =>
        let cp := addCol l2 (getILPVarName e lo.line p) 0
        addColToRow (addColToRow cp.1 rp.2 cp.2 1) (rowA + p) cp.2 1) rp.1) lp =
    ⟨lp.rows ++ List.replicate lines.length (1, RowType.fix),
     lp.cols ++ lines.flatMap (fun lo =>
       (List.range e.card).map (fun p => (getILPVarName e lo.line p, 0))),
     lp.entries ++ linesEntries rowA lp.rows.length lp.cols.length e.card lines.length⟩ := by
  induction lines with
  | nil =>
    intro lp
    simp [linesEntries]
  | cons lo rest ih =>
    intro lp
    rw [List.foldl_cons]
    show rest.foldl _ ((List.range e.card).foldl _ (addRow lp 1 RowType.fix).1) = _
    rw [colsFold_eq e lo (addRow lp 1 RowType.fix).2 rowA e.card (addRow lp 1 RowType.fix).1]
    rw [ih]
    simp only [addRow, List.length_append, List.length_replicate, List.length_map,
      List.length_range, List.length_cons, List.flatMap_cons, List.replicate_succ,
      List.length_flatMap]
    simp [linesEntries, List.append_assoc]

theorem slotRowsFold_eq (n : Nat) :
    ∀ l0 : LPState, (List.range n).foldl (fun l _p => (addRow l 1 RowType.fix).1) l0 =
      ⟨l0.rows ++ List.replicate n (1, RowType.fix), l0.cols, l0.entries⟩ := by
  induction n with
  | zero =>
    intro l0
    simp
  | succ k ih =>
    intro l0
    rw [List.range_succ, List.foldl_append, ih, List.foldl_cons, List.foldl_nil]
    simp [addRow, List.replicate_succ', List.append_assoc]

/-- The per-segment block of `createProblem`, in closed form. -/
theorem addAssignmentBlock_eq (lp : LPState) (e : OptEdge) :
    addAssignmentBlock lp e =
      ⟨lp.rows ++ List.replicate (e.card + e.lines.length) (1, RowType.fix),
       lp.cols ++ e.lines.flatMap (fun lo =>
         (List.range e.card).map (fun p => (getILPVarName e lo.line p, 0))),
       lp.entries ++ linesEntries lp.rows.length (lp.rows.length + e.card) lp.cols.length
         e.card e.lines.length⟩ := by
  unfold addAssignmentBlock
  rw [slotRowsFold_eq, linesFold_eq]
  simp only [List.append_assoc, ← List.replicate_add, List.length_append,
    List.length_replicate]

theorem assignFold_rows (es : List OptEdge) :
    ∀ lp : LPState, (es.foldl addAssignmentBlock lp).rows =
      lp.rows ++ List.replicate (rowsOf es) (1, RowType.fix) := by
  induction es with
  | nil =>
    intro lp
    simp [rowsOf]
  | cons e rest ih =>
    intro lp
    rw [List.foldl_cons, ih, addAssignmentBlock_eq]
    simp only [rowsOf, List.map_cons, List.sum_cons, List.append_assoc,
      ← List.replicate_add]

theorem blockColsLen (e : OptEdge) : ∀ ls : List LineOcc,
    (ls.flatMap (fun lo => (List.range e.card).map
      (fun p => ((getILPVarName e lo.line p, 0) : VName × ℚ)))).length =
      ls.length * e.card := by
  intro ls
  induction ls with
  | nil => simp
  | cons a as ih =>
    simp [ih]
    ring

theorem assignFold_colsLen (es : List OptEdge) :
    ∀ lp : LPState, (es.foldl addAssignmentBlock lp).cols.length =
      lp.cols.length + colsOf es := by
  induction es with
  | nil =>
    intro lp
    simp [colsOf]
  | cons e rest ih =>
    intro lp
    rw [List.foldl_cons, ih, addAssignmentBlock_eq]
    show (lp.cols ++ _).length + colsOf rest = _
    rw [List.length_append, blockColsLen e e.lines]
    simp [colsOf]
    ring

theorem linesEntries_row_bounds (card : Nat) :
    ∀ (n rowA R C : Nat) (t : Nat × Nat × ℚ), t ∈ linesEntries rowA R C card n →
      (rowA ≤ t.1 ∧ t.1 < rowA + card) ∨ (R ≤ t.1 ∧ t.1 < R + n) := by
  intro n
  induction n with
  | zero =>
    intro rowA R C t ht
    simp [linesEntries] at ht
  | succ k ih =>
    intro rowA R C t ht
    rw [linesEntries] at ht
    rcases List.mem_append.mp ht with h | h
    · obtain ⟨p, hp, hmem⟩ := List.mem_flatMap.mp h
      have hp8 := List.mem_range.mp hp
      rcases List.mem_cons.mp hmem with rfl | hmem2
      · right
        constructor <;> simp <;> omega
      · rcases List.mem_cons.mp hmem2 with rfl | hmem3
        · left
          constructor <;> simp <;> omega
        · exact absurd hmem3 (List.not_mem_nil t)
    · rcases ih rowA (R + 1) (C + card) t h with h2 | h2
      · exact Or.inl h2
      · right
        omega

theorem assignFold_entries_ext (es : List OptEdge) :
    ∀ lp : LPState, ∃ es', (es.foldl addAssignmentBlock lp).entries = lp.entries ++ es' ∧
      ∀ t ∈ es', lp.rows.length ≤ t.1 := by
  induction es with
  | nil =>
    intro lp
    exact ⟨[], by simp, by simp⟩
  | cons e rest ih =>
    intro lp
    rw [List.foldl_cons, addAssignmentBlock_eq]
    obtain ⟨es', he, hb⟩ := ih ⟨lp.rows ++ List.replicate (e.card + e.lines.length)
      (1, RowType.fix), _, _⟩
    refine ⟨linesEntries lp.rows.length (lp.rows.length + e.card) lp.cols.length
      e.card e.lines.length ++ es', ?_, ?_⟩
    · rw [he]
      simp [List.append_assoc]
    · intro t ht
      rcases List.mem_append.mp ht with h | h
      · rcases linesEntries_row_bounds e.card e.lines.length lp.rows.length
          (lp.rows.length + e.card) lp.cols.length t h with h2 | h2 <;> omega
      · have := hb t h
        simp at this
        omega

theorem hcUpd_same (hc : HierarOrderCfg) (a b : Nat) (l : List Nat) :
    hcUpd hc a b l a b = l := by
  simp [hcUpd]

theorem foldl_place_back (a b : Nat) (f : Nat → Nat) (rels : List Nat) (hc : HierarOrderCfg) :
    (rels.foldl (fun hc rel => hcUpd hc a b (hc a b ++ [f rel])) hc) a b =
      hc a b ++ rels.map f := by
  induction rels generalizing hc with
  | nil => simp
  | cons r rs ih =>
    rw [List.foldl_cons, ih, hcUpd_same, List.map_cons]
    simp

theorem foldl_place_front (a b : Nat) (f : Nat → Nat) (rels : List Nat) (hc : HierarOrderCfg) :
    (rels.foldl (fun hc rel => hcUpd hc a b (f rel :: hc a b)) hc) a b =
      (rels.map f).reverse ++ hc a b := by
  induction rels generalizing hc with
  | nil => simp
  | cons r rs ih =>
    rw [List.foldl_cons, ih, hcUpd_same, List.map_cons, List.reverse_cons]
    simp

/-- C4, amended: in solution extraction, when the segment's traversal
direction and the bundle's reference direction DISAGREE (`dir` xor
`front-dir` true), each translated position is APPENDED AT THE BACK of
the order list; when they agree (xor false), it is inserted at the
front.  Shown on the family of one-segment instances whose front
edge-trip-group is `wasCut` (it fixes the reference direction without
inserting) while the second, with direction `d2`, places the relatives
`rels` into slot `(1, 0)` over an arbitrary prior configuration. -/
theorem claim_C4 (fd d2 : Bool) (hc0 : HierarOrderCfg) (rels : List Nat)
    (lp : Nat → Nat → Nat) :
    getConfigurationFromSolution (fun _ => 1) lp
      [⟨0, [⟨0, 0, 1, [⟨0, rels⟩], [⟨0, 0, fd, true⟩, ⟨1, 0, d2, false⟩]⟩]⟩] hc0 1 0 =
      (if Bool.xor d2 fd then hc0 1 0 ++ rels.map (lp 1)
        else (rels.map (lp 1)).reverse ++ hc0 1 0) := by
  have hgt : (1 : ℚ) > 1 / 2 := by norm_num
  show (if (1 : ℚ) > 1 / 2 then
      placeRelatives lp ⟨0, 0, 1, [⟨0, rels⟩], [⟨0, 0, fd, true⟩, ⟨1, 0, d2, false⟩]⟩
        ⟨1, 0, d2, false⟩ hc0 ⟨0, rels⟩
    else hc0) 1 0 = _
  rw [if_pos hgt]
  unfold placeRelatives
  cases hxor : Bool.xor d2 fd with
  | true =>
    simp only [hxor, Bool.not_true, Bool.false_eq_true, if_false, if_true]
    exact foldl_place_back 1 0 (lp 1) rels hc0
  | false =>
    simp only [hxor, Bool.not_false, if_true]
    exact foldl_place_front 1 0 (lp 1) rels hc0

/-- C4 counterexample to the claim as stated: with reference direction
`false` and segment direction `true` (xor true), the relatives `[5, 6]`
are appended at the back, yielding `[5, 6]`; front insertion — what the
claim describes, as captured by `getConfigurationFromSolutionSpec` —
would yield `[6, 5]`. -/
theorem claim_C4_counterexample :
    getConfigurationFromSolution (fun _ => 1) (fun _ r => r)
      [⟨0, [⟨0, 0, 1, [⟨0, [5, 6]⟩], [⟨0, 0, false, true⟩, ⟨1, 0, true, false⟩]⟩]⟩]
      (fun _ _ => []) 1 0 = [5, 6] ∧
    getConfigurationFromSolutionSpec (fun _ => 1) (fun _ r => r)
      [⟨0, [⟨0, 0, 1, [⟨0, [5, 6]⟩], [⟨0, 0, false, true⟩, ⟨1, 0, true, false⟩]⟩]⟩]
      (fun _ _ => []) 1 0 = [6, 5] ∧
    getConfigurationFromSolution (fun _ => 1) (fun _ r => r)
      [⟨0, [⟨0, 0, 1, [⟨0, [5, 6]⟩], [⟨0, 0, false, true⟩, ⟨1, 0, true, false⟩]⟩]⟩]
      (fun _ _ => []) 1 0 ≠
    getConfigurationFromSolutionSpec (fun _ => 1) (fun _ r => r)
      [⟨0, [⟨0, 0, 1, [⟨0, [5, 6]⟩], [⟨0, 0, false, true⟩, ⟨1, 0, true, false⟩]⟩]⟩]
      (fun _ _ => []) 1 0 := by
  have hgt : (1 : ℚ) > 1 / 2 := by norm_num
  have h5 : getConfigurationFromSolution (fun _ => 1) (fun _ r => r)
      [⟨0, [⟨0, 0, 1, [⟨0, [5, 6]⟩], [⟨0, 0, false, true⟩, ⟨1, 0, true, false⟩]⟩]⟩]
      (fun _ _ => []) 1 0 = [5, 6] := by
    show (if (1 : ℚ) > 1 / 2 then
        placeRelatives (fun _ r => r)
          ⟨0, 0, 1, [⟨0, [5, 6]⟩], [⟨0, 0, false, true⟩, ⟨1, 0, true, false⟩]⟩
          ⟨1, 0, true, false⟩ (fun _ _ => []) ⟨0, [5, 6]⟩
      else fun _ _ => []) 1 0 = [5, 6]
    rw [if_pos hgt]
    decide
  have h6 : getConfigurationFromSolutionSpec (fun _ => 1) (fun _ r => r)
      [⟨0, [⟨0, 0, 1, [⟨0, [5, 6]⟩], [⟨0, 0, false, true⟩, ⟨1, 0, true, false⟩]⟩]⟩]
      (fun _ _ => []) 1 0 = [6, 5] := by
    show (if (1 : ℚ) > 1 / 2 then
        placeRelativesSpec (fun _ r => r)
          ⟨0, 0, 1, [⟨0, [5, 6]⟩], [⟨0, 0, false, true⟩, ⟨1, 0, true, false⟩]⟩
          ⟨1, 0, true, false⟩ (fun _ _ => []) ⟨0, [5, 6]⟩
      else fun _ _ => []) 1 0 = [6, 5]
    rw [if_pos hgt]
    decide
  refine ⟨h5, h6, ?_⟩
  intro h
  rw [h5, h6] at h
  exact absurd h (by decide)

theorem entrySum_append (a b : List (Nat × Nat × ℚ)) (sol : Nat → ℚ) (r : Nat) :
    entrySum (a ++ b) sol r = entrySum a sol r + entrySum b sol r := by
  simp [entrySum, List.filter_append]

theorem entrySum_of_ne (es : List (Nat × Nat × ℚ)) (sol : Nat → ℚ) (r : Nat)
    (h : ∀ t ∈ es, t.1 ≠ r) : entrySum es sol r = 0 := by
  induction es with
  | nil => simp [entrySum]
  | cons a as ih =>
    have ha : (a.1 == r) = false := by
      simp only [beq_eq_false_iff_ne]
      exact h a (List.mem_cons_self a as)
    simp only [entrySum, List.filter_cons, ha, if_neg Bool.false_ne_true]
    exact ih (fun t ht => h t (List.mem_cons_of_mem a ht))

theorem entrySum_flatMap {α : Type} (f : α → List (Nat × Nat × ℚ)) (l : List α)
    (sol : Nat → ℚ) (r : Nat) :
    entrySum (l.flatMap f) sol r = (l.map (fun a => entrySum (f a) sol r)).sum := by
  induction l with
  | nil => simp [entrySum]
  | cons a as ih =>
    rw [List.flatMap_cons, entrySum_append, ih, List.map_cons, List.sum_cons]

theorem entrySum_pair (a b : Nat) (q : ℚ) (sol : Nat → ℚ) (r : Nat) :
    entrySum [(a, b, q)] sol r = if a = r then q * sol b else 0 := by
  by_cases h : a = r
  · simp [entrySum, h]
  · simp [entrySum, h]

theorem sum_range_ite (f : Nat → ℚ) (card p : Nat) (hp : p < card) :
    ((List.range card).map (fun q => if q = p then f q else 0)).sum = f p := by
  induction card with
  | zero => omega
  | succ c ih =>
    rw [List.range_succ, List.map_append, List.sum_append]
    by_cases hc : p = c
    · have h0 : ((List.range c).map fun q => if q = p then f q else 0).sum = 0 := by
        apply List.sum_eq_zero
        intro x hx
        obtain ⟨q, hq, rfl⟩ := List.mem_map.mp hx
        have : q < c := List.mem_range.mp hq
        rw [if_neg (by omega)]
      rw [h0, hc]
      simp
    · have hp' : p < c := by omega
      rw [ih hp']
      simp [if_neg (Ne.symm (Ne.intro hc) : ¬ c = p)]

theorem block_mem_row (card rowA R C : Nat) (t : Nat × Nat × ℚ)
    (ht : t ∈ (List.range card).flatMap (fun q =>
      [((R, C + q, 1) : Nat × Nat × ℚ), (rowA + q, C + q, 1)])) :
    t.1 = R ∨ (rowA ≤ t.1 ∧ t.1 < rowA + card) := by
  obtain ⟨q, hq, hm⟩ := List.mem_flatMap.mp ht
  have hq' := List.mem_range.mp hq
  rcases List.mem_cons.mp hm with rfl | hm2
  · left
    rfl
  · rcases List.mem_cons.mp hm2 with rfl | hm3
    · right
      constructor <;> simp <;> omega
    · exact absurd hm3 (List.not_mem_nil t)

theorem block_slot (card rowA R C : Nat) (hR : rowA + card ≤ R) (p : Nat) (hp : p < card)
    (sol : Nat → ℚ) :
    entrySum ((List.range card).flatMap (fun q =>
      [((R, C + q, 1) : Nat × Nat × ℚ), (rowA + q, C + q, 1)])) sol (rowA + p) =
    sol (C + p) := by
  rw [entrySum_flatMap]
  have hmap : (List.range card).map (fun q => entrySum [((R, C + q, 1) : Nat × Nat × ℚ),
      (rowA + q, C + q, 1)] sol (rowA + p)) =
      (List.range card).map (fun q => if q = p then (1 : ℚ) * sol (C + q) else 0) := by
    apply List.map_congr_left
    intro q hq
    have hq' : q < card := List.mem_range.mp hq
    show entrySum ([((R, C + q, 1) : Nat × Nat × ℚ)] ++ [(rowA + q, C + q, 1)]) sol (rowA + p) = _
    rw [entrySum_append, entrySum_pair, entrySum_pair, if_neg (by omega)]
    by_cases h : q = p
    · rw [if_pos (by omega), if_pos h]
      ring
    · rw [if_neg (by omega), if_neg h]
      ring
  rw [hmap, sum_range_ite (fun q => (1 : ℚ) * sol (C + q)) card p hp, one_mul]

theorem block_line (card rowA R C : Nat) (hR : rowA + card ≤ R) (sol : Nat → ℚ) :
    entrySum ((List.range card).flatMap (fun q =>
      [((R, C + q, 1) : Nat × Nat × ℚ), (rowA + q, C + q, 1)])) sol R =
    ((List.range card).map (fun q => sol (C + q))).sum := by
  rw [entrySum_flatMap]
  congr 1
  apply List.map_congr_left
  intro q hq
  have hq' : q < card := List.mem_range.mp hq
  show entrySum ([((R, C + q, 1) : Nat × Nat × ℚ)] ++ [(rowA + q, C + q, 1)]) sol R = _
  rw [entrySum_append, entrySum_pair, entrySum_pair, if_pos rfl, if_neg (by omega)]
  ring

theorem linesEntries_slot (card p : Nat) (hp : p < card) (sol : Nat → ℚ) :
    ∀ (n rowA R C : Nat), rowA + card ≤ R →
      entrySum (linesEntries rowA R C card n) sol (rowA + p) =
      ((List.range n).map (fun li => sol (C + li * card + p))).sum := by
  intro n
  induction n with
  | zero =>
    intro rowA R C hR
    simp [linesEntries, entrySum]
  | succ k ih =>
    intro rowA R C hR
    rw [linesEntries, entrySum_append, block_slot card rowA R C hR p hp sol,
        ih rowA (R + 1) (C + card) (by omega)]
    rw [List.range_succ_eq_map, List.map_cons, List.sum_cons, List.map_map]
    have hfe : ((fun li => sol (C + li * card + p)) ∘ Nat.succ) =
        fun li => sol (C + card + li * card + p) := by
      funext li
      simp only [Function.comp, Nat.succ_mul]
      congr 1
      ring
    rw [hfe]
    have h0 : C + 0 * card + p = C + p := by ring
    rw [h0]

theorem linesEntries_line (card : Nat) (sol : Nat → ℚ) :
    ∀ (n li rowA R C : Nat), li < n → rowA + card ≤ R →
      entrySum (linesEntries rowA R C card n) sol (R + li) =
      ((List.range card).map (fun p => sol (C + li * card + p))).sum := by
  intro n
  induction n with
  | zero =>
    intro li rowA R C hli hR
    omega
  | succ k ih =>
    intro li rowA R C hli hR
    rw [linesEntries, entrySum_append]
    cases li with
    | zero =>
      rw [Nat.add_zero, block_line card rowA R C hR sol]
      have hrec : entrySum (linesEntries rowA (R + 1) (C + card) card k) sol R = 0 := by
        apply entrySum_of_ne
        intro t ht
        rcases linesEntries_row_bounds card k rowA (R + 1) (C + card) t ht with h | h <;> omega
      rw [hrec, add_zero]
      have h0 : (fun q => sol (C + 0 * card + q)) = fun q => sol (C + q) := by
        funext q
        congr 1
        ring
      rw [h0]
    | succ lm =>
      have hb : entrySum ((List.range card).flatMap (fun q =>
          [((R, C + q, 1) : Nat × Nat × ℚ), (rowA + q, C + q, 1)])) sol (R + (lm + 1)) = 0 := by
        apply entrySum_of_ne
        intro t ht
        rcases block_mem_row card rowA R C t ht with h | h <;> omega
      rw [hb, zero_add]
      have hrow : R + (lm + 1) = (R + 1) + lm := by omega
      rw [hrow, ih lm rowA (R + 1) (C + card) (by omega) (by omega)]
      have hfe : (fun q => sol (C + card + lm * card + q)) =
          fun q => sol (C + (lm + 1) * card + q) := by
        funext q
        congr 1
        ring
      rw [hfe]

theorem assignFold_entries_bounds (es : List OptEdge) :
    ∀ lp : LPState, ∃ E, (es.foldl addAssignmentBlock lp).entries = lp.entries ++ E ∧
      ∀ t ∈ E, lp.rows.length ≤ t.1 ∧ t.1 < lp.rows.length + rowsOf es := by
  induction es with
  | nil =>
    intro lp
    exact ⟨[], by simp, by simp⟩
  | cons e rest ih =>
    intro lp
    rw [List.foldl_cons, addAssignmentBlock_eq]
    obtain ⟨E, he, hb⟩ := ih ⟨lp.rows ++ List.replicate (e.card + e.lines.length)
      (1, RowType.fix), _, _⟩
    refine ⟨linesEntries lp.rows.length (lp.rows.length + e.card) lp.cols.length
      e.card e.lines.length ++ E, ?_, ?_⟩
    · rw [he]
      simp [List.append_assoc]
    · intro t ht
      have hsum : rowsOf (e :: rest) = (e.card + e.lines.length) + rowsOf rest := by
        simp [rowsOf]
      rcases List.mem_append.mp ht with h | h
      · rcases linesEntries_row_bounds e.card e.lines.length lp.rows.length
          (lp.rows.length + e.card) lp.cols.length t h with h2 | h2 <;> omega
      · have := hb t h
        simp at this
        omega

theorem Ext_refl (lp : LPState) : Ext lp lp :=
  ⟨⟨[], by simp⟩, ⟨[], by simp, by simp⟩⟩

theorem Ext_trans {a b c : LPState} (h1 : Ext a b) (h2 : Ext b c) : Ext a c := by
  obtain ⟨⟨rs1, hr1⟩, ⟨es1, he1, hb1⟩⟩ := h1
  obtain ⟨⟨rs2, hr2⟩, ⟨es2, he2, hb2⟩⟩ := h2
  refine ⟨⟨rs1 ++ rs2, by rw [hr2, hr1, List.append_assoc]⟩,
          ⟨es1 ++ es2, by rw [he2, he1, List.append_assoc], ?_⟩⟩
  intro t ht
  rcases List.mem_append.mp ht with h | h
  · exact hb1 t h
  · have h3 := hb2 t h
    have hlen : a.rows.length ≤ b.rows.length := by
      rw [hr1]
      simp
    omega

theorem Ext_rowsLen {a b : LPState} (h : Ext a b) : a.rows.length ≤ b.rows.length := by
  obtain ⟨⟨rs, hr⟩, _⟩ := h
  rw [hr]
  simp

theorem Ext_addRow {a b : LPState} (h : Ext a b) (q : ℚ) (ty : RowType) :
    Ext a (addRow b q ty).1 := by
  obtain ⟨⟨rs, hr⟩, ⟨es, he, hb⟩⟩ := h
  exact ⟨⟨rs ++ [(q, ty)], by simp [addRow, hr]⟩, ⟨es, by simp [addRow, he], hb⟩⟩

theorem Ext_addCol {a b : LPState} (h : Ext a b) (nm : VName) (obj : ℚ) :
    Ext a (addCol b nm obj).1 := by
  obtain ⟨⟨rs, hr⟩, ⟨es, he, hb⟩⟩ := h
  exact ⟨⟨rs, by simp [addCol, hr]⟩, ⟨es, by simp [addCol, he], hb⟩⟩

theorem Ext_addColToRow {a b : LPState} (h : Ext a b) (r c : Nat) (q : ℚ)
    (hr2 : a.rows.length ≤ r) : Ext a (addColToRow b r c q) := by
  obtain ⟨⟨rs, hr⟩, ⟨es, he, hb⟩⟩ := h
  refine ⟨⟨rs, by simp [addColToRow, hr]⟩,
          ⟨es ++ [(r, c, q)], by simp [addColToRow, he], ?_⟩⟩
  intro t ht
  rcases List.mem_append.mp ht with h1 | h1
  · exact hb t h1
  · simp at h1
    subst h1
    exact hr2

theorem Ext_addColToRowByIdx {a b : LPState} (h : Ext a b) (r : Nat) (ci : Int) (q : ℚ)
    (hr2 : a.rows.length ≤ r) : Ext a (addColToRowByIdx b r ci q) := by
  unfold addColToRowByIdx
  split
  · exact h
  · exact Ext_addColToRow h r ci.toNat q hr2

theorem foldl_ext {α : Type} (f : LPState → α → LPState)
    (hstep : ∀ l a, Ext l (f l a)) :
    ∀ (xs : List α) (lp : LPState), Ext lp (xs.foldl f lp) := by
  intro xs
  induction xs with
  | nil =>
    intro lp
    exact Ext_refl lp
  | cons a rest ih =>
    intro lp
    rw [List.foldl_cons]
    exact Ext_trans (hstep lp a) (ih (f lp a))

theorem Ext_addSameSegItem (lp : LPState) (it : SameSegItem) :
    Ext lp (addSameSegItem lp it) := by
  unfold addSameSegItem
  refine Ext_trans (Ext_addCol (Ext_refl lp) (VName.dec it.decId) it.obj)
    (foldl_ext _ ?_ it.combos _)
  intro l c
  exact Ext_addColToRow (Ext_addColToRowByIdx (Ext_addColToRowByIdx (Ext_addColToRowByIdx
    (Ext_addColToRowByIdx (Ext_addRow (Ext_refl l) 3 RowType.up) _ _ 1 (le_refl _))
    _ _ 1 (le_refl _)) _ _ 1 (le_refl _)) _ _ 1 (le_refl _)) _ _ (-1) (le_refl _)

theorem Ext_addDiffSegItem (lp : LPState) (it : DiffSegItem) :
    Ext lp (addDiffSegItem lp it) := by
  unfold addDiffSegItem
  refine Ext_trans (Ext_addCol (Ext_refl lp) (VName.dec it.decId) it.obj)
    (foldl_ext _ ?_ it.combos _)
  intro l c
  exact Ext_addColToRow (Ext_addColToRowByIdx (Ext_addColToRowByIdx
    (Ext_addRow (Ext_refl l) 1 RowType.up) _ _ 1 (le_refl _))
    _ _ 1 (le_refl _)) _ _ (-1) (le_refl _)

theorem phase2_ext (same : List SameSegItem) (diff : List DiffSegItem) (lp : LPState) :
    Ext lp (diff.foldl addDiffSegItem (same.foldl addSameSegItem lp)) :=
  Ext_trans (foldl_ext addSameSegItem Ext_addSameSegItem same lp)
    (foldl_ext addDiffSegItem Ext_addDiffSegItem diff _)

theorem rowsOf_append (a b : List OptEdge) : rowsOf (a ++ b) = rowsOf a + rowsOf b := by
  simp [rowsOf]

theorem createProblem_rowSum_block (g : List OptNode) (same : List SameSegItem)
    (diff : List DiffSegItem) (pre post : List OptEdge) (e : OptEdge)
    (hsplit : processedEdges g = pre ++ e :: post) (sol : Nat → ℚ) (r : Nat)
    (hr1 : rowsOf pre ≤ r) (hr2 : r < rowsOf pre + (e.card + e.lines.length)) :
    rowSum (createProblem g same diff) sol r =
      entrySum (linesEntries (rowsOf pre) (rowsOf pre + e.card) (colsOf pre)
        e.card e.lines.length) sol r := by
  have hCP : createProblem g same diff =
      diff.foldl addDiffSegItem (same.foldl addSameSegItem (assignmentPhase g)) := rfl
  have hA : assignmentPhase g =
      post.foldl addAssignmentBlock
        (addAssignmentBlock (pre.foldl addAssignmentBlock emptyLP) e) := by
    unfold assignmentPhase
    rw [hsplit, List.foldl_append, List.foldl_cons]
  have hRlen : (pre.foldl addAssignmentBlock emptyLP).rows.length = rowsOf pre := by
    rw [assignFold_rows pre emptyLP]
    simp [emptyLP]
  have hClen : (pre.foldl addAssignmentBlock emptyLP).cols.length = colsOf pre := by
    rw [assignFold_colsLen pre emptyLP]
    simp [emptyLP]
  obtain ⟨Epre, hEpre, hbpre⟩ := assignFold_entries_bounds pre emptyLP
  obtain ⟨Epost, hEpost, hbpost⟩ :=
    assignFold_entries_bounds post
      (addAssignmentBlock (pre.foldl addAssignmentBlock emptyLP) e)
  obtain ⟨⟨rs2, hrows2⟩, ⟨E2, hE2, hb2⟩⟩ := phase2_ext same diff (assignmentPhase g)
  have hblock := addAssignmentBlock_eq (pre.foldl addAssignmentBlock emptyLP) e
  have hblockE : (addAssignmentBlock (pre.foldl addAssignmentBlock emptyLP) e).entries =
      (pre.foldl addAssignmentBlock emptyLP).entries ++
        linesEntries (rowsOf pre) (rowsOf pre + e.card) (colsOf pre)
          e.card e.lines.length := by
    rw [hblock]
    dsimp only
    rw [hRlen, hClen]
  have hblockR : (addAssignmentBlock (pre.foldl addAssignmentBlock emptyLP) e).rows.length =
      rowsOf pre + (e.card + e.lines.length) := by
    rw [hblock]
    dsimp only
    rw [List.length_append, hRlen, List.length_replicate]
  have hArows : (assignmentPhase g).rows.length = rowsOf (processedEdges g) := by
    unfold assignmentPhase
    rw [assignFold_rows]
    simp [emptyLP]
  have htot : rowsOf (processedEdges g) =
      rowsOf pre + ((e.card + e.lines.length) + rowsOf post) := by
    rw [hsplit, rowsOf_append]
    have hc : rowsOf (e :: post) = (e.card + e.lines.length) + rowsOf post := by
      simp [rowsOf]
    omega
  have hEfull : (createProblem g same diff).entries =
      ((Epre ++ linesEntries (rowsOf pre) (rowsOf pre + e.card) (colsOf pre)
        e.card e.lines.length) ++ Epost) ++ E2 := by
    rw [hCP, hE2, hA, hEpost, hblockE, hEpre]
    simp [emptyLP]
  rw [rowSum, hEfull, entrySum_append, entrySum_append, entrySum_append]
  have h1 : entrySum Epre sol r = 0 := by
    apply entrySum_of_ne
    intro t ht
    have h1a := hbpre t ht
    simp [emptyLP] at h1a
    omega
  have h2 : entrySum Epost sol r = 0 := by
    apply entrySum_of_ne
    intro t ht
    have h3 := (hbpost t ht).1
    rw [hblockR] at h3
    omega
  have h4 : entrySum E2 sol r = 0 := by
    apply entrySum_of_ne
    intro t ht
    have h5 := hb2 t ht
    rw [hArows, htot] at h5
    omega
  rw [h1, h2, h4]
  ring

theorem createProblem_row_fix (g : List OptNode) (same : List SameSegItem)
    (diff : List DiffSegItem) (r : Nat) (hr : r < rowsOf (processedEdges g)) :
    (createProblem g same diff).rows[r]? = some ((1 : ℚ), RowType.fix) ∧
      r < (createProblem g same diff).rows.length := by
  have hCP : createProblem g same diff =
      diff.foldl addDiffSegItem (same.foldl addSameSegItem (assignmentPhase g)) := rfl
  obtain ⟨⟨rs2, hrows2⟩, _⟩ := phase2_ext same diff (assignmentPhase g)
  have hA : (assignmentPhase g).rows =
      List.replicate (rowsOf (processedEdges g)) ((1 : ℚ), RowType.fix) := by
    unfold assignmentPhase
    rw [assignFold_rows]
    simp [emptyLP]
  have hrows : (createProblem g same diff).rows =
      List.replicate (rowsOf (processedEdges g)) ((1 : ℚ), RowType.fix) ++ rs2 := by
    rw [hCP, hrows2, hA]
  constructor
  · rw [hrows, List.getElem?_append_left (by simp [hr]),
        List.getElem?_replicate_of_lt hr]
  · rw [hrows]
    simp
    omega

/-- C2: in every feasible solution of the ILP built by `createProblem`,
for every processed segment `e`: each slot `p < K` is assigned exactly one
line (the assignment variables of slot `p` sum to 1 over the lines), and
each line is assigned exactly one slot (the assignment variables of a line
sum to 1 over the slots). -/
theorem claim_C2 (g : List OptNode) (same : List SameSegItem) (diff : List DiffSegItem)
    (sol : Nat → ℚ) (hf : Feasible (createProblem g same diff) sol)
    (pre post : List OptEdge) (e : OptEdge)
    (hsplit : processedEdges g = pre ++ e :: post) :
    (∀ p, p < e.card →
      ((List.range e.lines.length).map (fun li => sol (colIdx pre e li p))).sum = 1) ∧
    (∀ li, li < e.lines.length →
      ((List.range e.card).map (fun p => sol (colIdx pre e li p))).sum = 1) := by
  have htot : rowsOf (processedEdges g) =
      rowsOf pre + ((e.card + e.lines.length) + rowsOf post) := by
    rw [hsplit, rowsOf_append]
    have hc : rowsOf (e :: post) = (e.card + e.lines.length) + rowsOf post := by
      simp [rowsOf]
    omega
  constructor
  · intro p hp
    have hfix := createProblem_row_fix g same diff (rowsOf pre + p) (by omega)
    have hok := hf.2 (rowsOf pre + p) hfix.2
    unfold rowOk at hok
    rw [hfix.1] at hok
    have hsum : rowSum (createProblem g same diff) sol (rowsOf pre + p) = 1 := by
      have hb : (rowSum (createProblem g same diff) sol (rowsOf pre + p) == (1 : ℚ)) =
          true := hok
      exact eq_of_beq hb
    rw [createProblem_rowSum_block g same diff pre post e hsplit sol
        (rowsOf pre + p) (by omega) (by omega)] at hsum
    rw [linesEntries_slot e.card p hp sol e.lines.length (rowsOf pre)
        (rowsOf pre + e.card) (colsOf pre) (le_refl _)] at hsum
    exact hsum
  · intro li hli
    have hfix := createProblem_row_fix g same diff (rowsOf pre + e.card + li) (by omega)
    have hok := hf.2 (rowsOf pre + e.card + li) hfix.2
    unfold rowOk at hok
    rw [hfix.1] at hok
    have hsum : rowSum (createProblem g same diff) sol (rowsOf pre + e.card + li) = 1 := by
      have hb : (rowSum (createProblem g same diff) sol (rowsOf pre + e.card + li) ==
          (1 : ℚ)) = true := hok
      exact eq_of_beq hb
    rw [createProblem_rowSum_block g same diff pre post e hsplit sol
        (rowsOf pre + e.card + li) (by omega) (by omega)] at hsum
    rw [linesEntries_line e.card sol e.lines.length li (rowsOf pre)
        (rowsOf pre + e.card) (colsOf pre) hli (le_refl _)] at hsum
    exact hsum

theorem claim_C2_witness :
    ((List.range eW.lines.length).map (fun li => solW (colIdx [] eW li 0))).sum = 1 ∧
    ((List.range eW.card).map (fun p => solW (colIdx [] eW 0 p))).sum = 1 := by
  have hf : Feasible (createProblem gW [] []) solW := by
    constructor
    · intro c _
      exact Or.inr rfl
    · intro r hr
      have h2 : (createProblem gW [] []).rows.length = 2 := rfl
      rw [h2] at hr
      interval_cases r
      · simp [rowOk, rowSum, entrySum, createProblem, assignmentPhase, addAssignmentBlock,
          processedEdges, emptyLP, addRow, addCol, addColToRow, gW, eW, solW,
          linesEntries, getILPVarName, List.range_succ, List.range_zero, List.foldl_append]
      · simp [rowOk, rowSum, entrySum, createProblem, assignmentPhase, addAssignmentBlock,
          processedEdges, emptyLP, addRow, addCol, addColToRow, gW, eW, solW,
          linesEntries, getILPVarName, List.range_succ, List.range_zero, List.foldl_append]
  exact ⟨(claim_C2 gW [] [] solW hf [] [] eW rfl).1 0 (by decide),
    (claim_C2 gW [] [] solW hf [] [] eW rfl).2 0 (by decide)⟩

end ILP

end Jeda
